import Mathlib

/-!
Verification of the table-reconstruction and row-normalization pipeline of the
bow-hunter-pipeline repository.

The definitions below are a shallow embedding of the Python sources:

* `src/etl/ingest_harvest_data.py` — Textract cell-grid reconstruction
  (`extract_table_rows`), header cleaning (`_clean_headers`) and harvest record
  normalization (`rows_to_data_frame`, embedded as `rows_to_data_frame_harvest`);
* `src/etl/ingest_population_data.py` — single-response cell-grid reconstruction
  (`ingest_population_data`) and population record normalization
  (`rows_to_data_frame`, embedded as `rows_to_data_frame_population`);
* `src/data_collection/ingest_population_data.py` — the local pdfplumber
  pipeline (`ingest_elk_population_data`).

Conventions of the embedding:

* Python strings are `String`, processed as `List Char`; character classes are
  modelled over their ASCII code points (`Char.toNat`).  Unicode-specific
  behaviour of `str.lower` / `str.isdigit` outside ASCII is not modelled.
* Code that can raise is embedded in `Except String`; the error string names
  the Python exception that the corresponding statement raises.
* `pandas` numeric coercion (`pd.to_numeric(..., errors="coerce")`) is
  modelled by `pyNumeric`, a total parser for optionally signed decimal
  literals returning `Option Rat` (`none` models NaN/NA).  The scientific
  notation accepted by pandas does not occur in this data and is not modelled.
* A `pandas` DataFrame is a list of column labels plus a list of rows of typed
  values (`Val`).  Duplicate column labels are rejected at construction
  (`mkDF`): pandas-specific semantics of label-duplicated frames are outside
  the model.  The dtype-based check of the `.str` accessor is modelled
  value-wise: a non-string value in a coerced column raises `AttributeError`,
  as the real code does on any frame with at least one row.
-/

/-! ## Character and string primitives -/

/-- Lowercase table used by `lowerChar`. -/
def lowTab : List Char := "abcdefghijklmnopqrstuvwxyz".toList

/-- ASCII lowercasing, as Python `str.lower` acts on ASCII letters. -/
def lowerChar (c : Char) : Char :=
  if 65 ≤ c.toNat ∧ c.toNat ≤ 90 then lowTab.getD (c.toNat - 65) c else c

/-- Python whitespace stripped by `str.strip` (ASCII part). -/
def isPySpace (c : Char) : Bool :=
  c.toNat == 32 || c.toNat == 9 || c.toNat == 10 ||
    c.toNat == 13 || c.toNat == 11 || c.toNat == 12

/-- ASCII decimal digit, as used by the regexes `\d` and `str.isdigit`. -/
def isDig (c : Char) : Bool := 48 ≤ c.toNat && c.toNat ≤ 57

/-- The character class `[a-z0-9_]` kept by `_clean_headers`. -/
def allowedChar (c : Char) : Bool :=
  (97 ≤ c.toNat && c.toNat ≤ 122) || (48 ≤ c.toNat && c.toNat ≤ 57) || c.toNat == 95

/-- Python `str.strip()` on a character list. -/
def pyStrip (l : List Char) : List Char :=
  ((l.dropWhile isPySpace).reverse.dropWhile isPySpace).reverse

/-- Python `str.strip()` on a string. -/
def pyStripStr (s : String) : String := String.mk (pyStrip s.toList)

/-- Python `str.lower()` on a string (ASCII model). -/
def pyLowerStr (s : String) : String := String.mk (s.toList.map lowerChar)

/-- `str.replace(" ", "_")` acts characterwise. -/
def spaceToUnderscore (c : Char) : Char := if c.toNat == 32 then '_' else c

/-- `str.replace("/", "_per_")` expands the slash character. -/
def slashExpand (c : Char) : List Char :=
  if c.toNat == 47 then "_per_".toList else [c]

/-! ## Header normalizers

`_clean_headers` is `src/etl/ingest_harvest_data.py` lines 225–231:
strip, lower, spaces to underscores, then `re.sub(r"[^a-z0-9_]", "", ...)`.

`popCleanStr` is `src/etl/ingest_population_data.py` line 185:
`h.lower().replace(" ", "_").replace("/", "_per_")` (no character stripping).
-/

/-- The cleaning applied to one harvest header. -/
def cleanHeaderChars (l : List Char) : List Char :=
  (((pyStrip l).map lowerChar).map spaceToUnderscore).filter allowedChar

/-- `_clean_headers` body for one header string. -/
def cleanHeaderStr (h : String) : String := String.mk (cleanHeaderChars h.toList)

/-- `_clean_headers` from the harvest script. -/
def _clean_headers (hs : List String) : List String := hs.map cleanHeaderStr

/-- The cleaning applied to one population header. -/
def popCleanChars (l : List Char) : List Char :=
  ((l.map lowerChar).map spaceToUnderscore).flatMap slashExpand

/-- Header cleaning of the population script (line 185). -/
def popCleanStr (h : String) : String := String.mk (popCleanChars h.toList)

/-! ### Facts about the character primitives -/

theorem lowTab_fact :
    ∀ i, i < 26 → ((lowTab[i]?).any (fun x => x.toNat == 97 + i)) = true := by
  decide

theorem lowerChar_toNat_of_upper {c : Char} (h : 65 ≤ c.toNat ∧ c.toNat ≤ 90) :
    (lowerChar c).toNat = c.toNat + 32 := by
  have hi : c.toNat - 65 < 26 := by omega
  have := lowTab_fact (c.toNat - 65) hi
  unfold lowerChar
  rw [if_pos h]
  cases hg : lowTab[c.toNat - 65]? with
  | none => rw [hg] at this; simp [Option.any] at this
  | some x =>
      rw [hg] at this
      simp only [Option.any, Nat.beq_eq_true_eq] at this
      have hx : lowTab.getD (c.toNat - 65) c = x := by
        simp [List.getD, hg]
      rw [hx]
      omega

theorem lowerChar_eq_of_not_upper {c : Char} (h : ¬ (65 ≤ c.toNat ∧ c.toNat ≤ 90)) :
    lowerChar c = c := by
  unfold lowerChar
  rw [if_neg h]

theorem lowerChar_not_upper (c : Char) :
    ¬ (65 ≤ (lowerChar c).toNat ∧ (lowerChar c).toNat ≤ 90) := by
  by_cases h : 65 ≤ c.toNat ∧ c.toNat ≤ 90
  · have := lowerChar_toNat_of_upper h
    omega
  · rw [lowerChar_eq_of_not_upper h]
    exact h

theorem lowerChar_idem (c : Char) : lowerChar (lowerChar c) = lowerChar c :=
  lowerChar_eq_of_not_upper (lowerChar_not_upper c)

theorem allowed_fixed_lower {c : Char} (h : allowedChar c = true) : lowerChar c = c := by
  simp only [allowedChar, Bool.or_eq_true, Bool.and_eq_true, decide_eq_true_eq,
    Nat.beq_eq_true_eq] at h
  exact lowerChar_eq_of_not_upper (by omega)

theorem allowed_not_space {c : Char} (h : allowedChar c = true) : isPySpace c = false := by
  simp only [allowedChar, Bool.or_eq_true, Bool.and_eq_true, decide_eq_true_eq,
    Nat.beq_eq_true_eq] at h
  simp only [isPySpace, Bool.or_eq_false_iff, beq_eq_false_iff_ne, ne_eq]
  omega

theorem allowed_fixed_space {c : Char} (h : allowedChar c = true) :
    spaceToUnderscore c = c := by
  simp only [allowedChar, Bool.or_eq_true, Bool.and_eq_true, decide_eq_true_eq,
    Nat.beq_eq_true_eq] at h
  simp only [spaceToUnderscore, Nat.beq_eq_true_eq]
  rw [if_neg (by omega)]

/-! ### Generic list helpers -/

theorem dropWhile_eq_self_of {p : Char → Bool} {l : List Char}
    (h : ∀ c ∈ l, p c = false) : l.dropWhile p = l := by
  cases l with
  | nil => rfl
  | cons a t =>
      simp only [List.dropWhile]
      rw [h a (by simp)]

theorem map_eq_self_of {α : Type} {f : α → α} {l : List α}
    (h : ∀ c ∈ l, f c = c) : l.map f = l := by
  induction l with
  | nil => rfl
  | cons a t ih =>
      simp only [List.map_cons, List.cons.injEq]
      exact ⟨h a (by simp), ih (fun c hc => h c (by simp [hc]))⟩

theorem flatMap_singleton_of {α : Type} {f : α → List α} {l : List α}
    (h : ∀ c ∈ l, f c = [c]) : l.flatMap f = l := by
  induction l with
  | nil => rfl
  | cons a t ih =>
      rw [List.flatMap_cons, h a (by simp), ih (fun c hc => h c (by simp [hc]))]
      rfl

theorem pyStrip_eq_self_of {l : List Char} (h : ∀ c ∈ l, isPySpace c = false) :
    pyStrip l = l := by
  unfold pyStrip
  rw [dropWhile_eq_self_of h]
  rw [dropWhile_eq_self_of (fun c hc => h c (List.mem_reverse.mp hc))]
  exact List.reverse_reverse l

/-! ### Idempotence of the header normalizers (claim C8) -/

theorem mem_cleanHeaderChars_allowed {l : List Char} {c : Char}
    (h : c ∈ cleanHeaderChars l) : allowedChar c = true :=
  (List.mem_filter.mp h).2

theorem cleanHeaderChars_fixed {l : List Char} (h : ∀ c ∈ l, allowedChar c = true) :
    cleanHeaderChars l = l := by
  unfold cleanHeaderChars
  rw [pyStrip_eq_self_of (fun c hc => allowed_not_space (h c hc))]
  rw [map_eq_self_of (fun c hc => allowed_fixed_lower (h c hc))]
  rw [map_eq_self_of (fun c hc => allowed_fixed_space (h c hc))]
  exact List.filter_eq_self.mpr h

/-- Characters surviving the population cleaning: lowercase-fixed, no space, no slash. -/
def popGoodChar (c : Char) : Prop :=
  lowerChar c = c ∧ c.toNat ≠ 32 ∧ c.toNat ≠ 47

theorem mem_popCleanChars_good {l : List Char} {c : Char}
    (h : c ∈ popCleanChars l) : popGoodChar c := by
  unfold popCleanChars at h
  rcases List.mem_flatMap.mp h with ⟨a, ha, hc⟩
  unfold slashExpand at hc
  by_cases h47 : a.toNat == 47
  · rw [if_pos h47] at hc
    fin_cases hc <;> exact ⟨by decide, by decide, by decide⟩
  · rw [if_neg h47] at hc
    simp only [List.mem_singleton] at hc
    subst hc
    rcases List.mem_map.mp ha with ⟨b, hb, hab⟩
    rcases List.mem_map.mp hb with ⟨d, _, hdb⟩
    subst hab hdb
    simp only [Nat.beq_eq_true_eq] at h47
    refine ⟨?_, ?_, h47⟩
    · unfold spaceToUnderscore
      by_cases hsp : (lowerChar d).toNat == 32
      · rw [if_pos hsp]; decide
      · rw [if_neg hsp]; exact lowerChar_idem d
    · unfold spaceToUnderscore
      by_cases hsp : (lowerChar d).toNat == 32
      · rw [if_pos hsp]; decide
      · rw [if_neg hsp]
        simpa using hsp

theorem popCleanChars_fixed {l : List Char} (h : ∀ c ∈ l, popGoodChar c) :
    popCleanChars l = l := by
  unfold popCleanChars
  rw [map_eq_self_of (fun c hc => (h c hc).1)]
  rw [map_eq_self_of (fun c hc => by
    unfold spaceToUnderscore
    rw [if_neg (by simpa using (h c hc).2.1)])]
  exact flatMap_singleton_of (fun c hc => by
    unfold slashExpand
    rw [if_neg (by simpa using (h c hc).2.2)])

theorem toList_mk (l : List Char) : (String.mk l).toList = l := rfl

/-! ## Numeric coercion and unit coercion -/

/-- Value of a digit string, most significant digit first. -/
def digitsVal (l : List Char) : Nat :=
  l.foldl (fun a c => 10 * a + (c.toNat - 48)) 0

/-- `str.replace(",", "")`: remove every comma. -/
def stripCommas (s : String) : String :=
  String.mk (s.toList.filter (fun c => !(c.toNat == 44)))

/-- Model of `pd.to_numeric(..., errors="coerce")` on one cell: parse an
optionally signed decimal literal (surrounding whitespace stripped), `none`
models the NaN produced for anything unparsable. -/
def pyNumeric (s : String) : Option Rat :=
  let l0 := pyStrip s.toList
  let sl : Bool × List Char :=
    match l0 with
    | '-' :: r => (true, r)
    | '+' :: r => (false, r)
    | _ => (false, l0)
  let ip := sl.2.takeWhile isDig
  let r1 := sl.2.drop ip.length
  let core : Option Rat :=
    match r1 with
    | [] => if ip.isEmpty then none else some ((digitsVal ip : Nat) : Rat)
    | '.' :: fp =>
        if fp.all isDig && !(ip.isEmpty && fp.isEmpty) then
          some ((digitsVal ip : Nat) + ((digitsVal fp : Nat) : Rat) / ((10 ^ fp.length : Nat) : Rat))
        else none
    | _ => none
  core.map (fun q => if sl.1 then -q else q)

/-- The unit coercion of `src/etl/ingest_harvest_data.py` line 259:
`int(x.lstrip("0")) if x.strip().isdigit() else pd.NA`.
`int("")` raises `ValueError`, which the code does not handle. -/
def unitCoerce (x : String) : Except String (Option Int) :=
  let t := pyStrip x.toList
  if !t.isEmpty && t.all isDig then
    let y := x.toList.dropWhile (fun c => c.toNat == 48)
    let yt := pyStrip y
    if yt.isEmpty then .error "ValueError: invalid literal for int() with base 10"
    else if yt.all isDig then .ok (some ((digitsVal yt : Nat) : Int))
    else .error "ValueError: invalid literal for int() with base 10"
  else .ok none

theorem dig_not_space {c : Char} (h : isDig c = true) : isPySpace c = false := by
  simp only [isDig, Bool.and_eq_true, decide_eq_true_eq] at h
  simp only [isPySpace, Bool.or_eq_false_iff, beq_eq_false_iff_ne, ne_eq]
  omega

theorem dropWhile_eq_nil_of {p : Char → Bool} {l : List Char}
    (h : ∀ c ∈ l, p c = true) : l.dropWhile p = [] := by
  induction l with
  | nil => rfl
  | cons a t ih =>
      simp only [List.dropWhile]
      rw [h a (by simp)]
      exact ih (fun c hc => h c (by simp [hc]))

theorem dropWhile_ne_nil_of {p : Char → Bool} {l : List Char} {c : Char}
    (hc : c ∈ l) (h : p c = false) : l.dropWhile p ≠ [] := by
  induction l with
  | nil => cases hc
  | cons a t ih =>
      simp only [List.dropWhile]
      by_cases ha : p a
      · rw [ha]
        simp only [List.mem_cons] at hc
        rcases hc with rfl | hc
        · rw [ha] at h; cases h
        · simpa using ih hc
      · rw [Bool.not_eq_true] at ha
        rw [ha]
        simp

theorem takeWhile_all {p : Char → Bool} {l : List Char} :
    ∀ c ∈ l.takeWhile p, p c = true := by
  intro c hc
  induction l with
  | nil => cases hc
  | cons a t ih =>
      simp only [List.takeWhile] at hc
      by_cases ha : p a
      · rw [ha] at hc
        simp only [List.mem_cons] at hc
        rcases hc with rfl | hc
        · exact ha
        · exact ih (by simpa [List.takeWhile] using hc)
      · rw [Bool.not_eq_true] at ha
        rw [ha] at hc
        cases hc

theorem mem_of_mem_dropWhile {p : Char → Bool} {l : List Char} {c : Char}
    (h : c ∈ l.dropWhile p) : c ∈ l :=
  (l.dropWhile_sublist p).mem h

theorem digitsVal_zeros_append {zs l : List Char}
    (h : ∀ c ∈ zs, c.toNat = 48) : digitsVal (zs ++ l) = digitsVal l := by
  unfold digitsVal
  rw [List.foldl_append]
  have hz : List.foldl (fun a c => 10 * a + (c.toNat - 48)) 0 zs = 0 := by
    induction zs with
    | nil => rfl
    | cons a t ih =>
        simp only [List.foldl_cons]
        rw [h a (by simp)]
        simpa using ih (fun c hc => h c (by simp [hc]))
  rw [hz]

/-- C10 — For every nonempty all-digit unit string: if every digit is `'0'`
(such as `"0"` or `"000"`), the coercion `int(x.lstrip("0"))` raises an
unhandled `ValueError` (int of the empty string); for every other digit-only
string it yields the integer value of the string, i.e. the value with leading
zeros removed. -/
theorem unit_coercion_zero_raises (s : String) (hne : s.toList ≠ [])
    (hdig : ∀ c ∈ s.toList, isDig c = true) :
    ((∀ c ∈ s.toList, c.toNat = 48) →
        unitCoerce s = .error "ValueError: invalid literal for int() with base 10") ∧
    ((∃ c ∈ s.toList, c.toNat ≠ 48) →
        unitCoerce s = .ok (some ((digitsVal s.toList : Nat) : Int))) := by
  have hstrip : pyStrip s.toList = s.toList :=
    pyStrip_eq_self_of (fun c hc => dig_not_space (hdig c hc))
  have hnil : s.toList.isEmpty = false := by
    cases h : s.toList with
    | nil => exact absurd h hne
    | cons a t => rfl
  have hguard : (!s.toList.isEmpty && s.toList.all isDig) = true := by
    simp only [Bool.and_eq_true, Bool.not_eq_true', List.all_eq_true]
    exact ⟨hnil, hdig⟩
  constructor
  · intro hzero
    have hdrop : s.toList.dropWhile (fun c => c.toNat == 48) = [] :=
      dropWhile_eq_nil_of (fun c hc => by simpa using hzero c hc)
    unfold unitCoerce
    simp only [hstrip, hdrop]
    rw [hguard]
    rfl
  · intro ⟨c, hc, hcz⟩
    have hdrop : s.toList.dropWhile (fun c => c.toNat == 48) ≠ [] :=
      dropWhile_ne_nil_of hc (by simpa using hcz)
    have hydig : ∀ d ∈ s.toList.dropWhile (fun c => c.toNat == 48), isDig d = true :=
      fun d hd => hdig d (mem_of_mem_dropWhile hd)
    have hystrip : pyStrip (s.toList.dropWhile (fun c => c.toNat == 48)) =
        s.toList.dropWhile (fun c => c.toNat == 48) :=
      pyStrip_eq_self_of (fun d hd => dig_not_space (hydig d hd))
    have hval : digitsVal (s.toList.dropWhile (fun c => c.toNat == 48)) =
        digitsVal s.toList := by
      conv_rhs =>
        rw [← List.takeWhile_append_dropWhile (p := fun c => c.toNat == 48) (l := s.toList)]
      rw [digitsVal_zeros_append (fun d hd => by simpa using takeWhile_all d hd)]
    unfold unitCoerce
    simp only [hstrip, hystrip]
    rw [hguard]
    simp only [if_true]
    rw [if_neg (by simpa using hdrop)]
    rw [if_pos (by simpa [List.all_eq_true] using hydig)]
    rw [hval]

deriving instance DecidableEq for Except

/-- Witness for C10 at the concrete inputs named by the claim. -/
theorem unit_coercion_zero_raises_witness :
    unitCoerce "000" = .error "ValueError: invalid literal for int() with base 10" ∧
    unitCoerce "007" = .ok (some 7) := by
  constructor
  · exact (unit_coercion_zero_raises "000" (by decide) (by decide)).1 (by decide)
  · have h := (unit_coercion_zero_raises "007" (by decide) (by decide)).2
      ⟨'7', by decide, by decide⟩
    rw [h]
    decide

/-- C8 — Header normalization is idempotent for both cleaning routines
(`_clean_headers` of the harvest script and the population header cleaning),
and a header already in canonical `[a-z0-9_]` form is returned unchanged. -/
theorem header_normalization_idempotent :
    (∀ h : String, cleanHeaderStr (cleanHeaderStr h) = cleanHeaderStr h) ∧
    (∀ h : String, popCleanStr (popCleanStr h) = popCleanStr h) ∧
    (∀ h : String, (∀ c ∈ h.toList, allowedChar c = true) →
      cleanHeaderStr h = h ∧ popCleanStr h = h) := by
  refine ⟨?_, ?_, ?_⟩
  · intro h
    unfold cleanHeaderStr
    rw [toList_mk]
    rw [cleanHeaderChars_fixed (fun c hc => mem_cleanHeaderChars_allowed hc)]
  · intro h
    unfold popCleanStr
    rw [toList_mk]
    rw [popCleanChars_fixed (fun c hc => mem_popCleanChars_good hc)]
  · intro h hcanon
    constructor
    · unfold cleanHeaderStr
      rw [cleanHeaderChars_fixed hcanon]
      rfl
    · unfold popCleanStr
      rw [popCleanChars_fixed (fun c hc => ⟨allowed_fixed_lower (hcanon c hc), by
          have := allowed_not_space (hcanon c hc)
          simp only [isPySpace, Bool.or_eq_false_iff, beq_eq_false_iff_ne, ne_eq] at this
          exact this.1.1.1.1.1, by
          have := hcanon c hc
          simp only [allowedChar, Bool.or_eq_true, Bool.and_eq_true, decide_eq_true_eq,
            Nat.beq_eq_true_eq] at this
          omega⟩)]
      rfl

/-- Witness for C8: an already-canonical header is a fixed point. -/
theorem header_normalization_idempotent_witness :
    cleanHeaderStr "gmu_list" = "gmu_list" ∧ popCleanStr "gmu_list" = "gmu_list" :=
  header_normalization_idempotent.2.2 "gmu_list" (by decide)

/-! ## Textract blocks and the cell-grid reconstructors

A `Block` models one Textract block: `page` is `b.get("Page", 1)` (the default
is the caller's concern), and `childIds` is the concatenation of the id lists
of the `CHILD` relationships, in order.
-/

structure Block where
  id : String
  blockType : String
  text : String
  page : Nat
  rowIndex : Nat
  columnIndex : Nat
  childIds : List String
deriving DecidableEq, Repr

/-- The word map `{b["Id"]: b["Text"] for b in blocks if b["BlockType"] == "WORD"}`;
dict comprehension semantics: the last binding of an id wins. -/
def wordText (blocks : List Block) (cid : String) : Option String :=
  ((blocks.filter (fun b => b.blockType == "WORD")).reverse.find?
    (fun b => b.id == cid)).map (fun b => b.text)

/-- Harvest cell text (line 206): unresolved child ids contribute the empty
string and the join is not stripped. -/
def cellTextH (blocks : List Block) (c : Block) : String :=
  String.intercalate " " (c.childIds.map (fun cid => (wordText blocks cid).getD ""))

/-- Population cell text (lines 143–150): only resolved ids are kept and the
join is stripped. -/
def cellTextP (blocks : List Block) (c : Block) : String :=
  pyStripStr (String.intercalate " " (c.childIds.filterMap (wordText blocks)))

/-- The sparse grid `table_grid`: an association list from `(row, col)` keys to
cell text, with insertion-ordered keys and dict overwrite semantics. -/
abbrev Grid := List ((Nat × Nat) × String)

def gridInsert (g : Grid) (k : Nat × Nat) (v : String) : Grid :=
  if g.any (fun e => e.1 = k) then
    g.map (fun e => if e.1 = k then (k, v) else e)
  else g ++ [(k, v)]

def gridGet (g : Grid) (r c : Nat) : Option String :=
  (g.find? (fun e => e.1 = (r, c))).map (fun e => e.2)

/-- `max((cell["RowIndex"] for cell in cells), default=0)` over one page. -/
def pageCells (blocks : List Block) (p : Nat) : List Block :=
  blocks.filter (fun b => b.page == p && b.blockType == "CELL")

def pageMaxRow (blocks : List Block) (p : Nat) : Nat :=
  (pageCells blocks p).foldl (fun m c => max m c.rowIndex) 0

/-- Place every cell of one page at `(rowIndex + offset, columnIndex)`. -/
def insertCells (blocks : List Block) (g : Grid) (off : Nat) (cells : List Block) : Grid :=
  cells.foldl (fun g c => gridInsert g (c.rowIndex + off, c.columnIndex) (cellTextH blocks c)) g

/-- The per-page loop of `extract_table_rows` (lines 188–209): pages in
ascending order, carrying the sparse grid and the cumulative row offset. -/
def processPages (blocks : List Block) : List Nat → Grid × Nat → Grid × Nat
  | [], st => st
  | p :: ps, st =>
      processPages blocks ps
        (insertCells blocks st.1 st.2 (pageCells blocks p), st.2 + pageMaxRow blocks p)

def maxPage (blocks : List Block) : Nat := blocks.foldl (fun m b => max m b.page) 0

/-- `sorted(pages.keys())`: the pages present among the blocks, ascending. -/
def pagesOf (blocks : List Block) : List Nat :=
  (List.range (maxPage blocks + 1)).filter (fun p => blocks.any (fun b => b.page == p))

/-- The sparse grid built by `extract_table_rows` of the harvest script. -/
def buildGridH (blocks : List Block) : Grid :=
  (processPages blocks (pagesOf blocks) ([], 0)).1

/-- The sparse grid built by `ingest_population_data` (lines 133–151): page
numbers are ignored, cells are placed at `(RowIndex, ColumnIndex)` directly. -/
def buildGridP (blocks : List Block) : Grid :=
  (blocks.filter (fun b => b.blockType == "CELL")).foldl
    (fun g c => gridInsert g (c.rowIndex, c.columnIndex) (cellTextP blocks c)) []

/-- `max(col for row in table_grid.values() for col in row)` — defined as a
fold; the empty-sequence `ValueError` is raised by the callers below. -/
def maxColOf (g : Grid) : Nat := g.foldl (fun m e => max m e.1.2) 0

def maxRowKey (g : Grid) : Nat := g.foldl (fun m e => max m e.1.1) 0

/-- `sorted(table_grid.keys())`, ascending distinct row indices. -/
def sortedRowKeys (g : Grid) : List Nat :=
  (List.range (maxRowKey g + 1)).filter (fun r => g.any (fun e => e.1.1 = r))

/-- The dense conversion shared by both reconstructors (lines 211–222 and
153–163): one row per distinct row index, columns `1..max_col`, missing
cells filled with the empty string. -/
def denseTable (g : Grid) : List (List String) :=
  (sortedRowKeys g).map (fun r =>
    (List.range' 1 (maxColOf g)).map (fun c => (gridGet g r c).getD ""))

/-- `extract_table_rows` of `src/etl/ingest_harvest_data.py`: the unguarded
`max` over an empty grid raises `ValueError`. -/
def extract_table_rows (blocks : List Block) : Except String (List (List String)) :=
  let g := buildGridH blocks
  if g.isEmpty then .error "ValueError: max() arg is an empty sequence"
  else .ok (denseTable g)

/-- The reconstruction part of `ingest_population_data` of
`src/etl/ingest_population_data.py` (applied to the blocks of the single
`get_document_analysis` response). -/
def ingest_population_data (blocks : List Block) : Except String (List (List String)) :=
  let g := buildGridP blocks
  if g.isEmpty then .error "ValueError: max() arg is an empty sequence"
  else .ok (denseTable g)

/-- The closed-form cumulative offset: the sum of `pageMaxRow` over all pages
smaller than `p` that occur among the blocks. -/
def cumOffset (blocks : List Block) (p : Nat) : Nat :=
  (((List.range p).filter (fun q => blocks.any (fun b => b.page == q))).map
    (pageMaxRow blocks)).sum

/-- The maximum `ColumnIndex` observed across all CELL fragments. -/
def maxCellCol (blocks : List Block) : Nat :=
  (blocks.filter (fun b => b.blockType == "CELL")).foldl
    (fun m c => max m c.columnIndex) 0

/-! ### Grid key lemmas -/

/-- A key is present in the sparse grid. -/
def hasKey (g : Grid) (k : Nat × Nat) : Prop := ∃ e ∈ g, e.1 = k

theorem hasKey_gridInsert_self (g : Grid) (k : Nat × Nat) (v : String) :
    hasKey (gridInsert g k v) k := by
  unfold gridInsert
  by_cases h : g.any (fun e => decide (e.1 = k))
  · rw [if_pos (by simpa using h)]
    simp only [List.any_eq_true, decide_eq_true_eq] at h
    rcases h with ⟨e, he, hek⟩
    refine ⟨(k, v), ?_, rfl⟩
    exact List.mem_map.mpr ⟨e, he, by rw [if_pos hek]⟩
  · rw [if_neg (by simpa using h)]
    exact ⟨(k, v), by simp, rfl⟩

theorem hasKey_gridInsert_mono {g : Grid} {k' : Nat × Nat} (k : Nat × Nat) (v : String)
    (h : hasKey g k') : hasKey (gridInsert g k v) k' := by
  rcases h with ⟨e, he, hek⟩
  unfold gridInsert
  by_cases hany : g.any (fun e => decide (e.1 = k))
  · rw [if_pos (by simpa using hany)]
    by_cases hk : e.1 = k
    · refine ⟨(k, v), ?_, by rw [← hek, hk]⟩
      exact List.mem_map.mpr ⟨e, he, by rw [if_pos hk]⟩
    · refine ⟨e, ?_, hek⟩
      exact List.mem_map.mpr ⟨e, he, by rw [if_neg hk]⟩
  · rw [if_neg (by simpa using hany)]
    exact ⟨e, List.mem_append_left _ he, hek⟩

theorem hasKey_foldlInsert_mono (key : Block → Nat × Nat) (val : Block → String)
    (cells : List Block) {g : Grid} {k : Nat × Nat} (h : hasKey g k) :
    hasKey (cells.foldl (fun g c => gridInsert g (key c) (val c)) g) k := by
  induction cells generalizing g with
  | nil => exact h
  | cons c cs ih =>
      simp only [List.foldl_cons]
      exact ih (hasKey_gridInsert_mono _ _ h)

theorem hasKey_foldlInsert_self (key : Block → Nat × Nat) (val : Block → String)
    {cells : List Block} {c : Block} (hc : c ∈ cells) (g : Grid) :
    hasKey (cells.foldl (fun g c => gridInsert g (key c) (val c)) g) (key c) := by
  induction cells generalizing g with
  | nil => cases hc
  | cons d ds ih =>
      simp only [List.foldl_cons]
      rcases List.mem_cons.mp hc with rfl | hc'
      · exact hasKey_foldlInsert_mono key val ds (hasKey_gridInsert_self _ _ _)
      · exact ih hc' _

theorem hasKey_insertCells_mono (blocks : List Block) {g : Grid} (off : Nat)
    (cells : List Block) {k : Nat × Nat} (h : hasKey g k) :
    hasKey (insertCells blocks g off cells) k :=
  hasKey_foldlInsert_mono (fun c => (c.rowIndex + off, c.columnIndex))
    (cellTextH blocks) cells h

theorem hasKey_insertCells_self (blocks : List Block) (g : Grid) (off : Nat)
    {cells : List Block} {c : Block} (hc : c ∈ cells) :
    hasKey (insertCells blocks g off cells) (c.rowIndex + off, c.columnIndex) :=
  hasKey_foldlInsert_self (fun c => (c.rowIndex + off, c.columnIndex))
    (cellTextH blocks) hc g

theorem hasKey_processPages_mono (blocks : List Block) (ps : List Nat)
    {st : Grid × Nat} {k : Nat × Nat} (h : hasKey st.1 k) :
    hasKey (processPages blocks ps st).1 k := by
  induction ps generalizing st with
  | nil => exact h
  | cons p ps ih =>
      exact ih (hasKey_insertCells_mono blocks st.2 (pageCells blocks p) h)

theorem processPages_snd (blocks : List Block) (ps : List Nat) (g : Grid) (off : Nat) :
    (processPages blocks ps (g, off)).2 = off + (ps.map (pageMaxRow blocks)).sum := by
  induction ps generalizing g off with
  | nil => simp [processPages]
  | cons p ps ih =>
      simp only [processPages, List.map_cons, List.sum_cons]
      rw [ih]
      omega

theorem processPages_append (blocks : List Block) (l₁ l₂ : List Nat) (st : Grid × Nat) :
    processPages blocks (l₁ ++ l₂) st = processPages blocks l₂ (processPages blocks l₁ st) := by
  induction l₁ generalizing st with
  | nil => rfl
  | cons p ps ih =>
      simp only [List.cons_append, processPages]
      exact ih _

theorem gridGet_of_hasKey {g : Grid} {r c : Nat} (h : hasKey g (r, c)) :
    ∃ v, gridGet g r c = some v := by
  induction g with
  | nil => rcases h with ⟨e, he, _⟩; cases he
  | cons e t ih =>
      by_cases hk : e.1 = (r, c)
      · exact ⟨e.2, by simp [gridGet, List.find?, hk]⟩
      · rcases h with ⟨e', he', hk'⟩
        rcases List.mem_cons.mp he' with rfl | he''
        · exact absurd hk' hk
        · rcases ih ⟨e', he'', hk'⟩ with ⟨v, hv⟩
          refine ⟨v, ?_⟩
          simpa [gridGet, List.find?, hk] using hv

theorem foldl_max_init_le {α : Type} (f : α → Nat) (l : List α) (a : Nat) :
    a ≤ l.foldl (fun m e => max m (f e)) a := by
  induction l generalizing a with
  | nil => exact Nat.le_refl a
  | cons e es ih => exact Nat.le_trans (Nat.le_max_left a (f e)) (ih (max a (f e)))

theorem foldl_max_mem_le {α : Type} (f : α → Nat) {l : List α} {e : α}
    (he : e ∈ l) (a : Nat) : f e ≤ l.foldl (fun m x => max m (f x)) a := by
  induction l generalizing a with
  | nil => cases he
  | cons d ds ih =>
      rcases List.mem_cons.mp he with rfl | he'
      · exact Nat.le_trans (Nat.le_max_right a (f e)) (foldl_max_init_le f ds _)
      · exact ih he' _

theorem foldl_max_le {α : Type} (f : α → Nat) {l : List α} {a m : Nat} (ha : a ≤ m)
    (h : ∀ e ∈ l, f e ≤ m) : l.foldl (fun m' e => max m' (f e)) a ≤ m := by
  induction l generalizing a with
  | nil => exact ha
  | cons d ds ih =>
      exact ih (Nat.max_le.mpr ⟨ha, h d (by simp)⟩) (fun e he => h e (by simp [he]))

theorem le_maxPage {blocks : List Block} {b : Block} (hb : b ∈ blocks) :
    b.page ≤ maxPage blocks :=
  foldl_max_mem_le (fun b => b.page) hb 0

theorem pagesOf_decomp (blocks : List Block) (p : Nat) (hp : p ∈ pagesOf blocks) :
    ∃ l₂, pagesOf blocks =
      ((List.range p).filter (fun q => blocks.any (fun b => b.page == q))) ++ p :: l₂ := by
  unfold pagesOf at hp ⊢
  have hmem := List.mem_filter.mp hp
  have hpres : (blocks.any (fun b => b.page == p)) = true := hmem.2
  have hlt : p < maxPage blocks + 1 := List.mem_range.mp hmem.1
  have hsplit : List.range (maxPage blocks + 1) =
      List.range p ++ List.range' p (maxPage blocks + 1 - p) := by
    rw [List.range_eq_range', List.range_eq_range']
    conv_lhs => rw [show maxPage blocks + 1 = (maxPage blocks + 1 - p) + p by omega]
    rw [← List.range'_append_1 0 p (maxPage blocks + 1 - p)]
    simp
  refine ⟨(List.range' (p + 1) (maxPage blocks - p)).filter
    (fun q => blocks.any (fun b => b.page == q)), ?_⟩
  rw [hsplit, List.filter_append]
  have hrw : List.range' p (maxPage blocks + 1 - p) =
      p :: List.range' (p + 1) (maxPage blocks - p) := by
    rw [show maxPage blocks + 1 - p = (maxPage blocks - p) + 1 by omega]
    exact List.range'_succ p (maxPage blocks - p) 1
  rw [hrw]
  simp only [List.filter_cons, hpres, if_true]

theorem cumOffset_eq_processPages_offset (blocks : List Block) (p : Nat) :
    cumOffset blocks p = (processPages blocks
      ((List.range p).filter (fun q => blocks.any (fun b => b.page == q))) ([], 0)).2 := by
  rw [processPages_snd]
  simp [cumOffset]

/-- Any CELL fragment's adjusted key is present in the harvest grid. -/
theorem hasKey_buildGridH {blocks : List Block} {b : Block} (hb : b ∈ blocks)
    (hcell : b.blockType = "CELL") :
    hasKey (buildGridH blocks) (b.rowIndex + cumOffset blocks b.page, b.columnIndex) := by
  have hpres : (blocks.any (fun x => x.page == b.page)) = true :=
    List.any_eq_true.mpr ⟨b, hb, by simp⟩
  have hpmem : b.page ∈ pagesOf blocks := by
    unfold pagesOf
    exact List.mem_filter.mpr ⟨List.mem_range.mpr (by
      have := le_maxPage hb
      omega), hpres⟩
  rcases pagesOf_decomp blocks b.page hpmem with ⟨l₂, hdec⟩
  unfold buildGridH
  rw [hdec, processPages_append]
  rcases hpp : processPages blocks
    ((List.range b.page).filter (fun q => blocks.any (fun x => x.page == q))) ([], 0)
    with ⟨g₁, off₁⟩
  have hoff : cumOffset blocks b.page = off₁ := by
    rw [cumOffset_eq_processPages_offset, hpp]
  rw [hoff]
  simp only [processPages]
  apply hasKey_processPages_mono
  have hbc : b ∈ pageCells blocks b.page := by
    unfold pageCells
    exact List.mem_filter.mpr ⟨hb, by simp [hcell]⟩
  exact hasKey_insertCells_self blocks g₁ off₁ hbc

/-- Any CELL fragment's raw key is present in the population grid. -/
theorem hasKey_buildGridP {blocks : List Block} {b : Block} (hb : b ∈ blocks)
    (hcell : b.blockType = "CELL") :
    hasKey (buildGridP blocks) (b.rowIndex, b.columnIndex) := by
  unfold buildGridP
  exact hasKey_foldlInsert_self (fun c => (c.rowIndex, c.columnIndex))
    (cellTextP blocks) (List.mem_filter.mpr ⟨hb, by simp [hcell]⟩) []

/-! ### Maximum column bookkeeping -/

/-- Every key of the grid has column index at most `m`. -/
def gridWithin (m : Nat) (g : Grid) : Prop := ∀ e ∈ g, e.1.2 ≤ m

theorem gridWithin_gridInsert {m : Nat} {g : Grid} {k : Nat × Nat} {v : String}
    (hk : k.2 ≤ m) (hg : gridWithin m g) : gridWithin m (gridInsert g k v) := by
  intro e he
  unfold gridInsert at he
  by_cases hany : g.any (fun e => decide (e.1 = k))
  · rw [if_pos (by simpa using hany)] at he
    rcases List.mem_map.mp he with ⟨e', he', heq⟩
    by_cases hk' : e'.1 = k
    · rw [if_pos hk'] at heq
      rw [← heq]
      exact hk
    · rw [if_neg hk'] at heq
      rw [← heq]
      exact hg e' he'
  · rw [if_neg (by simpa using hany)] at he
    rcases List.mem_append.mp he with he' | he'
    · exact hg e he'
    · simp only [List.mem_singleton] at he'
      rw [he']
      exact hk

theorem gridWithin_foldlInsert {m : Nat} (key : Block → Nat × Nat) (val : Block → String)
    {cells : List Block} {g : Grid} (hc : ∀ c ∈ cells, (key c).2 ≤ m)
    (hg : gridWithin m g) :
    gridWithin m (cells.foldl (fun g c => gridInsert g (key c) (val c)) g) := by
  induction cells generalizing g with
  | nil => exact hg
  | cons c cs ih =>
      simp only [List.foldl_cons]
      exact ih (fun d hd => hc d (by simp [hd]))
        (gridWithin_gridInsert (hc c (by simp)) hg)

theorem mem_filter_cell_of_pageCells {blocks : List Block} {p : Nat} {c : Block}
    (h : c ∈ pageCells blocks p) :
    c ∈ blocks.filter (fun b => b.blockType == "CELL") := by
  have hm := List.mem_filter.mp h
  refine List.mem_filter.mpr ⟨hm.1, ?_⟩
  have := hm.2
  simp only [Bool.and_eq_true] at this
  exact this.2

theorem gridWithin_processPages {m : Nat} {blocks : List Block} (ps : List Nat)
    {st : Grid × Nat}
    (hcells : ∀ c ∈ blocks.filter (fun b => b.blockType == "CELL"), c.columnIndex ≤ m)
    (hg : gridWithin m st.1) : gridWithin m (processPages blocks ps st).1 := by
  induction ps generalizing st with
  | nil => exact hg
  | cons p ps ih =>
      simp only [processPages]
      exact ih (gridWithin_foldlInsert _ _
        (fun c hc => hcells c (mem_filter_cell_of_pageCells hc)) hg)

theorem maxColOf_le_of_within {m : Nat} {g : Grid} (h : gridWithin m g) :
    maxColOf g ≤ m := by
  unfold gridWithin at h
  exact foldl_max_le (fun e : (Nat × Nat) × String => e.1.2) (Nat.zero_le m) h

theorem col_le_maxColOf {g : Grid} {k : Nat × Nat} (h : hasKey g k) :
    k.2 ≤ maxColOf g := by
  rcases h with ⟨e, he, hek⟩
  rw [← hek]
  exact foldl_max_mem_le (fun e => e.1.2) he 0

theorem maxColOf_buildGridH (blocks : List Block) :
    maxColOf (buildGridH blocks) = maxCellCol blocks := by
  apply Nat.le_antisymm
  · apply maxColOf_le_of_within
    apply gridWithin_processPages
    · intro c hc
      exact foldl_max_mem_le (fun c => c.columnIndex) hc 0
    · intro e he
      cases he
  · unfold maxCellCol
    apply foldl_max_le (fun c : Block => c.columnIndex) (Nat.zero_le _)
    intro c hc
    have hm := List.mem_filter.mp hc
    exact col_le_maxColOf (hasKey_buildGridH hm.1 (by simpa using hm.2))

theorem maxColOf_buildGridP (blocks : List Block) :
    maxColOf (buildGridP blocks) = maxCellCol blocks := by
  apply Nat.le_antisymm
  · apply maxColOf_le_of_within
    apply gridWithin_foldlInsert
    · intro c hc
      exact foldl_max_mem_le (fun c => c.columnIndex) hc 0
    · intro e he
      cases he
  · unfold maxCellCol
    apply foldl_max_le (fun c : Block => c.columnIndex) (Nat.zero_le _)
    intro c hc
    have hm := List.mem_filter.mp hc
    exact col_le_maxColOf (hasKey_buildGridP hm.1 (by simpa using hm.2))

/-! ### Rectangularity of the dense conversion -/

theorem denseTable_length (g : Grid) :
    (denseTable g).length = (sortedRowKeys g).length := by
  simp [denseTable]

theorem denseTable_row_length {g : Grid} {row : List String}
    (h : row ∈ denseTable g) : row.length = maxColOf g := by
  rcases List.mem_map.mp h with ⟨r, _, hrow⟩
  rw [← hrow]
  simp

theorem denseTable_get {g : Grid} {i c : Nat}
    (hi : i < (sortedRowKeys g).length) (hc1 : 1 ≤ c) (hc2 : c ≤ maxColOf g) :
    ((denseTable g).getD i []).getD (c - 1) "" =
      (gridGet g ((sortedRowKeys g).getD i 0) c).getD "" := by
  have hrow : (denseTable g)[i]? =
      some ((List.range' 1 (maxColOf g)).map
        (fun c => (gridGet g ((sortedRowKeys g)[i]) c).getD "")) := by
    unfold denseTable
    rw [List.getElem?_map, List.getElem?_eq_getElem hi]
    rfl
  simp only [List.getD_eq_getElem?_getD]
  rw [hrow]
  simp only [Option.getD_some]
  rw [List.getElem?_map]
  rw [List.getElem?_range' 1 1 (show c - 1 < maxColOf g by omega)]
  simp only [Option.map_some', Option.getD_some]
  rw [List.getElem?_eq_getElem hi]
  simp only [Option.getD_some]
  rw [show 1 + 1 * (c - 1) = c by omega]

/-! ### Concrete block inputs -/

/-- A WORD block. -/
def mkWord (i t : String) (p : Nat) : Block :=
  { id := i, blockType := "WORD", text := t, page := p,
    rowIndex := 0, columnIndex := 0, childIds := [] }

/-- A CELL block with its child word ids. -/
def mkCell (p r c : Nat) (ids : List String) : Block :=
  { id := "", blockType := "CELL", text := "", page := p,
    rowIndex := r, columnIndex := c, childIds := ids }

/-- Two pages: page 1 holds rows 1–5 (so maxRow = 5), page 2 holds rows 1–2.
This is the spec's multi-page example. -/
def exTwoPages : List Block :=
  [mkWord "w1" "A1" 1, mkWord "w2" "A2" 1, mkWord "w3" "A3" 1, mkWord "w4" "A4" 1,
   mkWord "w5" "A5" 1, mkWord "w6" "B1" 2, mkWord "w7" "B2" 2,
   mkCell 1 1 1 ["w1"], mkCell 1 2 1 ["w2"], mkCell 1 3 1 ["w3"], mkCell 1 4 1 ["w4"],
   mkCell 1 5 1 ["w5"], mkCell 2 1 1 ["w6"], mkCell 2 2 1 ["w7"]]

/-- Blocks with no CELL fragment at all. -/
def wordOnlyBlocks : List Block := [mkWord "w0" "orphan" 1]

/-- C1 — The claim (and §4.1/§9 of the spec) requires that an empty
cell-fragment collection yields an "empty table" report instead of an
arithmetic error; the code instead raises `ValueError` from the unguarded
`max` over an empty sequence, in both reconstructors.  This theorem evaluates
the embedded code at the failing inputs. -/
theorem reconstructor_raises_on_empty_cells :
    extract_table_rows [] = .error "ValueError: max() arg is an empty sequence" ∧
    ingest_population_data [] = .error "ValueError: max() arg is an empty sequence" ∧
    extract_table_rows wordOnlyBlocks =
      .error "ValueError: max() arg is an empty sequence" ∧
    ingest_population_data wordOnlyBlocks =
      .error "ValueError: max() arg is an empty sequence" := by
  decide

/-- C2 (counterexample) — the population-script reconstructor ignores page
numbers: on the spec's two-page example the page-2 cell with row index 1 is
placed at row 1 (overwriting the page-1 cell), not at row 6; the output table
has five rows, with page-2 text in the first two rows. -/
theorem population_reconstructor_ignores_pages :
    gridGet (buildGridP exTwoPages) 6 1 = none ∧
    gridGet (buildGridP exTwoPages) 1 1 = some "B1" ∧
    ingest_population_data exTwoPages =
      .ok [["B1"], ["B2"], ["A3"], ["A4"], ["A5"]] := by
  decide

/-- C2 (amended) — in the harvest-script reconstructor `extract_table_rows`,
every CELL fragment is placed at row index equal to its own row index plus the
cumulative sum of the maximum row indices of all preceding pages; in
particular, on the two-page example (page-1 maxRow = 5, page-2 rows starting
at 1) the page-2 rows land at offsets 6 and 7.  The population-script
reconstructor does not offset pages (see the counterexample). -/
theorem harvest_reconstructor_page_offset :
    (∀ (blocks : List Block) (b : Block), b ∈ blocks → b.blockType = "CELL" →
      ∃ v, gridGet (buildGridH blocks)
        (b.rowIndex + cumOffset blocks b.page) b.columnIndex = some v) ∧
    extract_table_rows exTwoPages =
      .ok [["A1"], ["A2"], ["A3"], ["A4"], ["A5"], ["B1"], ["B2"]] := by
  constructor
  · intro blocks b hb hcell
    exact gridGet_of_hasKey (hasKey_buildGridH hb hcell)
  · decide

/-- Witness for C2: the general placement statement applied to the page-2
row-1 cell of the two-page example (cumulative offset 5, so row 6). -/
theorem harvest_reconstructor_page_offset_witness :
    ∃ v, gridGet (buildGridH exTwoPages)
      (1 + cumOffset exTwoPages 2) 1 = some v :=
  harvest_reconstructor_page_offset.1 exTwoPages (mkCell 2 1 1 ["w6"])
    (by decide) rfl

theorem hasKey_ne_nil {g : Grid} {k : Nat × Nat} (h : hasKey g k) : g ≠ [] := by
  rcases h with ⟨e, he, _⟩
  intro hg
  rw [hg] at he
  cases he

theorem isEmpty_false_of_ne_nil {g : Grid} (h : g ≠ []) : g.isEmpty = false := by
  cases hg : g with
  | nil => exact absurd hg h
  | cons e t => rfl

/-- The shape of a reconstructed table over a nonempty grid. -/
theorem rect_of_grid {g : Grid} (hne : g ≠ []) (mc : Nat) (hmc : maxColOf g = mc) :
    ∃ t, (if g.isEmpty then
        (.error "ValueError: max() arg is an empty sequence" :
          Except String (List (List String)))
      else .ok (denseTable g)) = .ok t ∧
      t.length = (sortedRowKeys g).length ∧
      (∀ row ∈ t, row.length = mc) ∧
      (∀ i c, i < t.length → 1 ≤ c → c ≤ mc →
        (t.getD i []).getD (c - 1) "" =
          (gridGet g ((sortedRowKeys g).getD i 0) c).getD "") := by
  rw [isEmpty_false_of_ne_nil hne]
  refine ⟨denseTable g, rfl, denseTable_length g, ?_, ?_⟩
  · intro row hr
    rw [← hmc]
    exact denseTable_row_length hr
  · intro i c hi hc1 hc2
    rw [denseTable_length] at hi
    exact denseTable_get hi hc1 (by omega)

/-- C6 — For every input with a nonempty CELL-fragment collection, both
reconstructors succeed and emit a rectangular table: every row has length
equal to the maximum column index observed across all cells, and grid
positions holding no cell are filled with the empty string (each entry of
row `i`, column `c`, is exactly the sparse-grid lookup with default `""`). -/
theorem reconstructor_rectangular (blocks : List Block)
    (hcells : blocks.filter (fun b => b.blockType == "CELL") ≠ []) :
    (∃ t, extract_table_rows blocks = .ok t ∧
      t.length = (sortedRowKeys (buildGridH blocks)).length ∧
      (∀ row ∈ t, row.length = maxCellCol blocks) ∧
      (∀ i c, i < t.length → 1 ≤ c → c ≤ maxCellCol blocks →
        (t.getD i []).getD (c - 1) "" =
          (gridGet (buildGridH blocks)
            ((sortedRowKeys (buildGridH blocks)).getD i 0) c).getD "")) ∧
    (∃ t, ingest_population_data blocks = .ok t ∧
      t.length = (sortedRowKeys (buildGridP blocks)).length ∧
      (∀ row ∈ t, row.length = maxCellCol blocks) ∧
      (∀ i c, i < t.length → 1 ≤ c → c ≤ maxCellCol blocks →
        (t.getD i []).getD (c - 1) "" =
          (gridGet (buildGridP blocks)
            ((sortedRowKeys (buildGridP blocks)).getD i 0) c).getD "")) := by
  rcases List.exists_mem_of_ne_nil _ hcells with ⟨b, hb⟩
  have hmem := List.mem_filter.mp hb
  have hcell : b.blockType = "CELL" := by simpa using hmem.2
  constructor
  · exact rect_of_grid (hasKey_ne_nil (hasKey_buildGridH hmem.1 hcell)) _
      (maxColOf_buildGridH blocks)
  · exact rect_of_grid (hasKey_ne_nil (hasKey_buildGridP hmem.1 hcell)) _
      (maxColOf_buildGridP blocks)

/-- Witness for C6 at the two-page example. -/
theorem reconstructor_rectangular_witness :
    ∃ t, extract_table_rows exTwoPages = .ok t ∧
      t.length = (sortedRowKeys (buildGridH exTwoPages)).length ∧
      (∀ row ∈ t, row.length = maxCellCol exTwoPages) ∧
      (∀ i c, i < t.length → 1 ≤ c → c ≤ maxCellCol exTwoPages →
        (t.getD i []).getD (c - 1) "" =
          (gridGet (buildGridH exTwoPages)
            ((sortedRowKeys (buildGridH exTwoPages)).getD i 0) c).getD "") :=
  (reconstructor_rectangular exTwoPages (by decide)).1

/-! ## DataFrame model and the record normalizers -/

/-- A cell value of the modelled DataFrame: the source strings, int64 values,
float values (as rationals) and NA/NaN. -/
inductive Val where
  | s (v : String)
  | i (v : Int)
  | q (v : Rat)
  | na
deriving DecidableEq, Repr

/-- A DataFrame: ordered column labels plus rows of values. -/
structure DF where
  cols : List String
  rows : List (List Val)
deriving DecidableEq, Repr

/-- `pd.DataFrame(filtered_rows, columns=headers)`: raises on shape mismatch;
frames with duplicate labels are outside the model (see the header comment). -/
def mkDF (headers : List String) (drows : List (List String)) : Except String DF :=
  if drows.any (fun r => r.length != headers.length) then
    .error "ValueError: passed data had different number of columns"
  else if headers.Nodup then
    .ok { cols := headers, rows := drows.map (fun r => r.map Val.s) }
  else .error "duplicate column labels are outside the model"

/-- `[row for row in data_rows if row[0].strip().lower() != "total"]`;
`row[0]` raises `IndexError` on an empty row. -/
def filterTotal : List (List String) → Except String (List (List String))
  | [] => .ok []
  | row :: rest =>
      match row with
      | [] => .error "IndexError: list index out of range"
      | c0 :: _ => do
          let tl ← filterTotal rest
          if String.mk ((pyStrip c0.toList).map lowerChar) = "total" then .ok tl
          else .ok (row :: tl)

/-- Index of the first column with the given label. -/
def colIdx (l : List String) (n : String) : Option Nat :=
  match l with
  | [] => none
  | a :: t => if a == n then some 0 else (colIdx t n).map (fun j => j + 1)

/-- `df[n] = v` with a scalar: overwrite the column if the label exists,
otherwise append it, broadcasting the value to every row. -/
def setColConst (df : DF) (n : String) (v : Val) : DF :=
  match colIdx df.cols n with
  | some j => { df with rows := df.rows.map (fun r => r.set j v) }
  | none => { cols := df.cols ++ [n], rows := df.rows.map (fun r => r ++ [v]) }

/-- `df[n] = series`: overwrite or append a computed column. -/
def setColVals (df : DF) (n : String) (vs : List Val) : DF :=
  match colIdx df.cols n with
  | some j => { df with rows := (df.rows.zip vs).map (fun rv => rv.1.set j rv.2) }
  | none => { cols := df.cols ++ [n],
              rows := (df.rows.zip vs).map (fun rv => rv.1 ++ [rv.2]) }

/-- `df.rename(columns={a: b})`: renames every matching label. -/
def renameCol (df : DF) (a b : String) : DF :=
  { df with cols := df.cols.map (fun x => if x = a then b else x) }

/-- `df.drop(columns=[a])` for a label known to be present. -/
def dropCol (df : DF) (a : String) : DF :=
  match colIdx df.cols a with
  | none => df
  | some j => { cols := df.cols.eraseIdx j, rows := df.rows.map (fun r => r.eraseIdx j) }

/-- The record set the DataFrame holds: one labelled record per row. -/
def recordsOf (df : DF) : List (List (String × Val)) :=
  df.rows.map (fun r => df.cols.zip r)

/-- Field lookup in a record (first matching label). -/
def recLookup (r : List (String × Val)) (n : String) : Option Val :=
  (r.find? (fun e => e.1 == n)).map (fun e => e.2)

/-! ### Harvest normalizer (`rows_to_data_frame`, ingest_harvest_data.py 234–294) -/

def metaStageH (df : DF) (state species : String) (year : Int) (season : String) : DF :=
  setColConst (setColConst (setColConst (setColConst df "state" (Val.s state))
    "species" (Val.s species)) "year" (Val.i year)) "season" (Val.s season)

/-- Lines 256–263: coerce the unit column, then drop NA-unit rows. -/
def unitStage (df : DF) : Except String DF :=
  match colIdx df.cols "unit" with
  | none => .ok df
  | some j => do
      let newRows ← df.rows.mapM (fun r =>
        match r.getD j Val.na with
        | Val.s x => (unitCoerce x).map (fun v =>
            r.set j (match v with | some n => Val.i n | none => Val.na))
        | _ => .error "AttributeError: strip is not defined on non-string values")
      .ok { df with rows := newRows.filter (fun r => r.getD j Val.na != Val.na) }

/-- `SPECIES_HARVEST_COLUMN_MAP.get(species.lower())` (lines 35–39). -/
def speciesPairs (species : String) : Option (List (String × String)) :=
  if pyLowerStr species = "elk" then
    some [("bulls", "adult_male"), ("cows", "adult_female"), ("calves", "young")]
  else if pyLowerStr species = "deer" then
    some [("bucks", "adult_male"), ("does", "adult_female"), ("fawns", "young")]
  else if pyLowerStr species = "pronghorn" then
    some [("bucks", "adult_male"), ("does", "adult_female"), ("fawns", "young")]
  else none

/-- Lines 267–276: rename present sex-count columns, fill missing ones with 0. -/
def speciesStage (df : DF) (species : String) : Except String DF :=
  match speciesPairs species with
  | none => .error "ValueError: Unsupported species for harvest ingestion."
  | some ps => .ok (ps.foldl (fun df pr =>
      if df.cols.contains pr.1 then renameCol df pr.1 pr.2
      else setColConst df pr.2 (Val.i 0)) df)

def numericColsH : List String :=
  ["adult_male", "adult_female", "young", "total_harvest",
   "total_hunters", "percent_success", "total_rec_days"]

/-- One cell of `pd.to_numeric(df[col].str.replace(",", "")).astype("Int64")`:
`.str` on a non-string value raises `AttributeError`; a non-integral float
cannot be cast safely to Int64 and raises. -/
def intCoerceRow (j : Nat) (r : List Val) : Except String (List Val) :=
  match r.getD j Val.na with
  | Val.s str =>
      match pyNumeric (stripCommas str) with
      | none => .ok (r.set j Val.na)
      | some v =>
          if v.den = 1 then .ok (r.set j (Val.i v.num))
          else .error "TypeError: cannot safely cast non-equivalent values"
  | _ => .error "AttributeError: Can only use .str accessor with string values"

/-- One iteration of the numeric-column loop (lines 288–292). -/
def numericStep (df : DF) (col : String) : Except String DF :=
  match colIdx df.cols col with
  | none => .ok df
  | some j => do
      let newRows ← df.rows.mapM (intCoerceRow j)
      .ok { df with rows := newRows }

/-- Lines 278–292. -/
def numericStage (df : DF) : Except String DF :=
  numericColsH.foldlM numericStep df

/-- `rows_to_data_frame` of the harvest script, returning the record set. -/
def rows_to_data_frame_harvest (table : List (List String)) (state species : String)
    (year : Int) (season : String) : Except String (List (List (String × Val))) := do
  match table with
  | [] => .error "IndexError: list index out of range"
  | rawHeaders :: dataRows => do
      let filtered ← filterTotal dataRows
      let df ← mkDF (_clean_headers rawHeaders) filtered
      let df := metaStageH df state species year season
      let df ← unitStage df
      let df ← speciesStage df species
      let df ← numericStage df
      .ok (recordsOf df)

/-! ### Population normalizer (`rows_to_data_frame`, ingest_population_data.py 166–274) -/

def metaStageP (df : DF) (state species : String) (year : Int) : DF :=
  setColConst (setColConst (setColConst df "state" (Val.s state))
    "species" (Val.s species)) "year" (Val.i year)

def gmuLit1 : List Char := "game_management_units_involved_in_".toList

def gmuLit2 : List Char := "game_management_unites_involved_in_".toList

/-- `re.match(pattern, col)` for `<literal>\d{4}`: anchored at the start only. -/
def gmuPrefixMatch (lit : List Char) (col : String) : Bool :=
  lit.isPrefixOf col.toList &&
    (let rest := col.toList.drop lit.length
     decide (4 ≤ rest.length) && (rest.take 4).all isDig)

def gmuPatMatch (col : String) : Bool :=
  gmuPrefixMatch gmuLit1 col || gmuPrefixMatch gmuLit2 col

/-- Lines 215–233: rename a GMU-patterned column to `gmu_list` if needed. -/
def gmuStage (df : DF) : DF :=
  if df.cols.contains "gmu_list" then df
  else
    match df.cols.find? gmuPatMatch with
    | some col => renameCol df col "gmu_list"
    | none => df

/-- One cell of `pd.to_numeric(df[col].str.replace(",", ""), errors="coerce")`. -/
def ratCoerceRow (j : Nat) (r : List Val) : Except String (List Val) :=
  match r.getD j Val.na with
  | Val.s str => .ok (r.set j (match pyNumeric (stripCommas str) with
      | none => Val.na
      | some v => Val.q v))
  | _ => .error "AttributeError: Can only use .str accessor with string values"

/-- Lines 236–241: coerce `post_hunt_estimate` when present. -/
def pheStage (df : DF) : Except String DF :=
  match colIdx df.cols "post_hunt_estimate" with
  | none => .ok df
  | some j => do
      let newRows ← df.rows.mapM (ratCoerceRow j)
      .ok { df with rows := newRows }

/-- `SPECIES_RATIO_HEADERS` (lines 202–206), applied to `species.lower()`. -/
def speciesRatioHeaderList (sp : String) : List String :=
  if sp = "elk" then ["bull_cow_ratio_(per_100)", "bull_per_cow_ratio_(per_100)"]
  else if sp = "deer" then ["buck_doe_ratio_(per_100)", "buck_per_doe_ratio_(per_100)"]
  else if sp = "pronghorn" then ["buck_per_doe_ratio_(per_100)"]
  else []

def possibleRatioCols (species : String) : List String :=
  speciesRatioHeaderList (pyLowerStr species) ++ ["male_female_ratio"]

/-- Lines 243–261: resolve the first present ratio synonym into
`male_female_ratio`; if none is present the frame is returned unchanged
(warning only) and no `male_female_ratio` column is created. -/
def ratioStage (df : DF) (species : String) : Except String DF :=
  match (possibleRatioCols species).find? (fun c => df.cols.contains c) with
  | none => .ok df
  | some fc =>
      match colIdx df.cols fc with
      | none => .ok df
      | some j => do
          let vals ← df.rows.mapM (fun r =>
            match r.getD j Val.na with
            | Val.s str => .ok (match pyNumeric (stripCommas str) with
                | none => Val.na
                | some v => Val.q v)
            | _ => .error "AttributeError: Can only use .str accessor with string values")
          let df2 := setColVals df "male_female_ratio" vals
          .ok (if fc = "male_female_ratio" then df2 else dropCol df2 fc)

/-- `astype(str)` rendering used by the herd-name fallback. -/
def valToStr : Val → String
  | Val.s v => v
  | Val.i v => toString v
  | Val.q v => toString v
  | Val.na => "<NA>"

/-- Lines 264–272: herd-name fallback from the `dau*` column. -/
def herdStage (df : DF) : DF :=
  if df.cols.contains "herd_name" then df
  else if df.cols.contains "dau*" then
    let df2 := renameCol df "dau*" "dau"
    match colIdx df2.cols "dau" with
    | none => df2
    | some j => setColVals df2 "herd_name"
        (df2.rows.map (fun r => Val.s ("DAU_" ++ valToStr (r.getD j Val.na))))
  else df

/-- `rows_to_data_frame` of the remote population script, as the record set. -/
def rows_to_data_frame_population (table : List (List String)) (state species : String)
    (year : Int) : Except String (List (List (String × Val))) := do
  match table with
  | [] => .error "IndexError: list index out of range"
  | rawHeaders :: dataRows => do
      let filtered ← filterTotal dataRows
      let df ← mkDF (rawHeaders.map popCleanStr) filtered
      let df := metaStageP df state species year
      let df := gmuStage df
      let df ← pheStage df
      let df ← ratioStage df species
      .ok (recordsOf (herdStage df))

/-! ### Inversion helpers for `Except`, `mapM`, `foldlM` -/

theorem except_bind_ok {α β : Type} (a : α) (f : α → Except String β) :
    (Except.ok a >>= f) = f a := rfl

theorem except_bind_error {α β : Type} (e : String) (f : α → Except String β) :
    ((Except.error e : Except String α) >>= f) = .error e := rfl

theorem except_ok_of_bind {α β : Type} {x : Except String α} {f : α → Except String β}
    {b : β} (h : (x >>= f) = .ok b) : ∃ a, x = .ok a ∧ f a = .ok b := by
  cases x with
  | error e => rw [except_bind_error] at h; exact Except.noConfusion h
  | ok a => rw [except_bind_ok] at h; exact ⟨a, rfl, h⟩

theorem mapM_ok_mem {α β : Type} {f : α → Except String β} {l : List α} {l' : List β}
    (h : l.mapM f = .ok l') : ∀ y ∈ l', ∃ x ∈ l, f x = .ok y := by
  induction l generalizing l' with
  | nil =>
      rw [List.mapM_nil] at h
      cases h
      intro y hy
      cases hy
  | cons a t ih =>
      rw [List.mapM_cons] at h
      rcases except_ok_of_bind h with ⟨b, hb, h₂⟩
      rcases except_ok_of_bind h₂ with ⟨bs, hbs, h₃⟩
      cases h₃
      intro y hy
      rcases List.mem_cons.mp hy with rfl | hy'
      · exact ⟨a, by simp, hb⟩
      · rcases ih hbs y hy' with ⟨x, hx, hfx⟩
        exact ⟨x, by simp [hx], hfx⟩

/-! ### `getD` / `set` / `findIdx?` helpers -/

theorem getD_set_self {α : Type} {l : List α} {j : Nat} {d : α} (h : j < l.length)
    (v : α) : (l.set j v).getD j d = v := by
  rw [List.getD_eq_getElem?_getD, List.getElem?_set_self h]
  rfl

theorem getD_set_ne {α : Type} {l : List α} {j j' : Nat} {d : α} (h : j' ≠ j)
    (v : α) : (l.set j' v).getD j d = l.getD j d := by
  rw [List.getD_eq_getElem?_getD, List.getD_eq_getElem?_getD, List.getElem?_set_ne h]

theorem getD_default_of_ge {α : Type} {l : List α} {j : Nat} {d : α}
    (h : l.length ≤ j) : l.getD j d = d := by
  rw [List.getD_eq_getElem?_getD, List.getElem?_eq_none h]
  rfl

theorem getD_append_left {α : Type} {l t : List α} {j : Nat} {d : α}
    (h : j < l.length) : (l ++ t).getD j d = l.getD j d := by
  rw [List.getD_eq_getElem?_getD, List.getD_eq_getElem?_getD,
    List.getElem?_append_left h]

theorem colIdx_found {l : List String} {n : String} {j : Nat}
    (h : colIdx l n = some j) : l[j]? = some n := by
  induction l generalizing j with
  | nil => cases h
  | cons a t ih =>
      rw [colIdx] at h
      by_cases ha : (a == n : Bool)
      · rw [if_pos ha] at h
        cases h
        simp only [beq_iff_eq] at ha
        rw [ha]
        simp
      · rw [if_neg ha] at h
        simp only [Option.map_eq_some'] at h
        rcases h with ⟨j', hj', rfl⟩
        simpa using ih hj'

theorem colIdx_isSome_of_mem {l : List String} {n : String}
    (hx : n ∈ l) : (colIdx l n).isSome := by
  induction l with
  | nil => cases hx
  | cons a t ih =>
      rw [colIdx]
      by_cases ha : (a == n : Bool)
      · rw [if_pos ha]; rfl
      · rw [if_neg ha]
        rcases List.mem_cons.mp hx with rfl | hx'
        · simp at ha
        · simpa using ih hx'

theorem colIdx_append_of_some {l l' : List String} {n : String} {j : Nat}
    (h : colIdx l n = some j) : colIdx (l ++ l') n = some j := by
  induction l generalizing j with
  | nil => cases h
  | cons a t ih =>
      rw [colIdx] at h
      rw [List.cons_append, colIdx]
      by_cases ha : (a == n : Bool)
      · rw [if_pos ha] at h ⊢
        exact h
      · rw [if_neg ha] at h ⊢
        simp only [Option.map_eq_some'] at h
        rcases h with ⟨j', hj', rfl⟩
        simp [ih hj']

theorem colIdx_map_pred {rn : String → String} {l : List String} {n : String}
    (h : ∀ x, ((rn x) == n : Bool) = (x == n)) :
    colIdx (l.map rn) n = colIdx l n := by
  induction l with
  | nil => rfl
  | cons a t ih =>
      rw [List.map_cons, colIdx, colIdx, h a]
      by_cases ha : (a == n : Bool)
      · simp [ha]
      · simp [ha, ih]

theorem lt_length_of_colIdx {l : List String} {n : String} {j : Nat}
    (h : colIdx l n = some j) : j < l.length :=
  (List.getElem?_eq_some_iff.mp (colIdx_found h)).1

theorem zip_find_eq {cols : List String} {row : List Val} {n : String} {j : Nat}
    (hfi : colIdx cols n = some j) (hlen : row.length = cols.length) :
    (cols.zip row).find? (fun e => e.1 == n) = some (n, row.getD j Val.na) := by
  induction cols generalizing row j with
  | nil => cases hfi
  | cons c cs ih =>
      cases row with
      | nil =>
          have := lt_length_of_colIdx hfi
          simp at hlen
      | cons v vs =>
          rw [colIdx] at hfi
          rw [List.zip_cons_cons]
          by_cases hc : (c == n : Bool)
          · rw [if_pos hc] at hfi
            cases hfi
            rw [List.find?_cons_of_pos _ (by simpa using hc)]
            simp only [beq_iff_eq] at hc
            rw [hc]
            rfl
          · rw [if_neg hc] at hfi
            simp only [Option.map_eq_some'] at hfi
            rcases hfi with ⟨j', hj', rfl⟩
            rw [List.find?_cons_of_neg _ (by simpa using hc)]
            exact ih hj' (by simpa using hlen)

theorem recLookup_none_of_not_mem {df : DF} {r : List (String × Val)} {n : String}
    (hr : r ∈ recordsOf df) (hn : n ∉ df.cols) : recLookup r n = none := by
  rcases List.mem_map.mp hr with ⟨row, _, hrow⟩
  unfold recLookup
  rw [List.find?_eq_none.mpr]
  · rfl
  · intro e he
    rw [← hrow] at he
    have := (List.of_mem_zip he).1
    simp only [beq_iff_eq]
    intro hne
    rw [hne] at this
    exact hn this

/-! ### Column-label bookkeeping through the population stages -/

theorem mkDF_ok_cols {H : List String} {drows : List (List String)} {df : DF}
    (h : mkDF H drows = .ok df) : df.cols = H := by
  unfold mkDF at h
  by_cases h1 : drows.any (fun r => r.length != H.length)
  · rw [if_pos h1] at h
    exact Except.noConfusion h
  · rw [if_neg h1] at h
    by_cases h2 : H.Nodup
    · rw [if_pos h2] at h
      cases h
      rfl
    · rw [if_neg h2] at h
      exact Except.noConfusion h

theorem cols_setColConst_mem {df : DF} {n m : String} {v : Val}
    (h : m ∈ (setColConst df n v).cols) : m ∈ df.cols ∨ m = n := by
  unfold setColConst at h
  cases hj : colIdx df.cols n with
  | some j =>
      rw [hj] at h
      exact Or.inl h
  | none =>
      rw [hj] at h
      rcases List.mem_append.mp h with h' | h'
      · exact Or.inl h'
      · simp only [List.mem_singleton] at h'
        exact Or.inr h'

theorem cols_setColVals_mem {df : DF} {n m : String} {vs : List Val}
    (h : m ∈ (setColVals df n vs).cols) : m ∈ df.cols ∨ m = n := by
  unfold setColVals at h
  cases hj : colIdx df.cols n with
  | some j =>
      rw [hj] at h
      exact Or.inl h
  | none =>
      rw [hj] at h
      rcases List.mem_append.mp h with h' | h'
      · exact Or.inl h'
      · simp only [List.mem_singleton] at h'
        exact Or.inr h'

theorem cols_renameCol_mem {df : DF} {a b m : String}
    (h : m ∈ (renameCol df a b).cols) : m ∈ df.cols ∨ m = b := by
  unfold renameCol at h
  rcases List.mem_map.mp h with ⟨x, hx, hxm⟩
  by_cases hxa : x = a
  · rw [if_pos hxa] at hxm
    exact Or.inr hxm.symm
  · rw [if_neg hxa] at hxm
    rw [← hxm]
    exact Or.inl hx

theorem cols_dropCol_mem {df : DF} {a m : String}
    (h : m ∈ (dropCol df a).cols) : m ∈ df.cols := by
  unfold dropCol at h
  cases hj : colIdx df.cols a with
  | none =>
      rw [hj] at h
      exact h
  | some j =>
      rw [hj] at h
      exact List.mem_of_mem_eraseIdx h

theorem cols_metaStageP_mem {df : DF} {state species m : String} {year : Int}
    (h : m ∈ (metaStageP df state species year).cols) :
    m ∈ df.cols ∨ m = "state" ∨ m = "species" ∨ m = "year" := by
  unfold metaStageP at h
  rcases cols_setColConst_mem h with h' | h'
  · rcases cols_setColConst_mem h' with h'' | h''
    · rcases cols_setColConst_mem h'' with h3 | h3
      · exact Or.inl h3
      · exact Or.inr (Or.inl h3)
    · exact Or.inr (Or.inr (Or.inl h''))
  · exact Or.inr (Or.inr (Or.inr h'))

theorem cols_gmuStage_mem {df : DF} {m : String}
    (h : m ∈ (gmuStage df).cols) : m ∈ df.cols ∨ m = "gmu_list" := by
  unfold gmuStage at h
  by_cases hg : df.cols.contains "gmu_list"
  · rw [if_pos hg] at h
    exact Or.inl h
  · rw [if_neg hg] at h
    cases hf : df.cols.find? gmuPatMatch with
    | some col =>
        rw [hf] at h
        exact cols_renameCol_mem h
    | none =>
        rw [hf] at h
        exact Or.inl h

theorem pheStage_ok_cols {df df' : DF} (h : pheStage df = .ok df') :
    df'.cols = df.cols := by
  unfold pheStage at h
  cases hj : colIdx df.cols "post_hunt_estimate" with
  | none =>
      rw [hj] at h
      cases h
      rfl
  | some j =>
      rw [hj] at h
      rcases except_ok_of_bind h with ⟨newRows, _, h2⟩
      cases h2
      rfl

theorem cols_herdStage_mem {df : DF} {m : String}
    (h : m ∈ (herdStage df).cols) : m ∈ df.cols ∨ m = "dau" ∨ m = "herd_name" := by
  unfold herdStage at h
  by_cases h1 : df.cols.contains "herd_name"
  · rw [if_pos h1] at h
    exact Or.inl h
  · rw [if_neg h1] at h
    by_cases h2 : df.cols.contains "dau*"
    · rw [if_pos h2] at h
      dsimp only at h
      cases hj : colIdx (renameCol df "dau*" "dau").cols "dau" with
      | none =>
          rw [hj] at h
          rcases cols_renameCol_mem h with h' | h'
          · exact Or.inl h'
          · exact Or.inr (Or.inl h')
      | some j =>
          rw [hj] at h
          rcases cols_setColVals_mem h with h' | h'
          · rcases cols_renameCol_mem h' with h'' | h''
            · exact Or.inl h''
            · exact Or.inr (Or.inl h'')
          · exact Or.inr (Or.inr h')
    · rw [if_neg h2] at h
      exact Or.inl h

theorem mem_possibleRatioCols {species c : String} (h : c ∈ possibleRatioCols species) :
    c = "bull_cow_ratio_(per_100)" ∨ c = "bull_per_cow_ratio_(per_100)" ∨
    c = "buck_doe_ratio_(per_100)" ∨ c = "buck_per_doe_ratio_(per_100)" ∨
    c = "male_female_ratio" := by
  unfold possibleRatioCols speciesRatioHeaderList at h
  split_ifs at h <;>
    simp only [List.mem_append, List.mem_cons, List.not_mem_nil,
      List.mem_singleton, or_false, false_or] at h <;> tauto

/-- C5 (amended, population side) — when none of the species-specific
sex-ratio synonyms (nor `male_female_ratio` itself) appears among the cleaned
headers, the population normalizer completes without creating the
`male_female_ratio` field: every output record lacks it (the persisted field
is null), and the batch is not failed by the absence (the witness exhibits a
successful run).  The harvest side of the original claim is refuted by the
counterexample `harvest_missing_sex_count_fails_batch`. -/
theorem population_missing_ratio_field_absent :
    ∀ (table : List (List String)) (state species : String) (year : Int)
      (recs : List (List (String × Val))),
      (∀ c ∈ possibleRatioCols species, c ∉ (table.headD []).map popCleanStr) →
      rows_to_data_frame_population table state species year = .ok recs →
      ∀ r ∈ recs, recLookup r "male_female_ratio" = none := by
  intro table state species year recs hc hok r hr
  cases table with
  | nil => exact Except.noConfusion hok
  | cons rawHeaders dataRows =>
      simp only [List.headD_cons] at hc
      unfold rows_to_data_frame_population at hok
      rcases except_ok_of_bind hok with ⟨filtered, hft, hok⟩
      rcases except_ok_of_bind hok with ⟨df0, hmk, hok⟩
      dsimp only at hok
      rcases except_ok_of_bind hok with ⟨df3, hphe, hok⟩
      rcases except_ok_of_bind hok with ⟨df4, hrat, hok⟩
      injection hok with hok
      subst hok
      have hcols0 : df0.cols = rawHeaders.map popCleanStr := mkDF_ok_cols hmk
      have hnotin : ∀ c ∈ possibleRatioCols species, c ∉ df3.cols := by
        intro c hcm hmem
        have hcnot : c ≠ "state" ∧ c ≠ "species" ∧ c ≠ "year" ∧ c ≠ "gmu_list" := by
          rcases mem_possibleRatioCols hcm with rfl | rfl | rfl | rfl | rfl <;>
            exact ⟨by decide, by decide, by decide, by decide⟩
        rw [pheStage_ok_cols hphe] at hmem
        rcases cols_gmuStage_mem hmem with h1 | h1
        · rcases cols_metaStageP_mem h1 with h2 | h2 | h2 | h2
          · rw [hcols0] at h2
            exact hc c hcm h2
          · exact hcnot.1 h2
          · exact hcnot.2.1 h2
          · exact hcnot.2.2.1 h2
        · exact hcnot.2.2.2 h1
      have hfnone : (possibleRatioCols species).find?
          (fun c => df3.cols.contains c) = none := by
        rw [List.find?_eq_none]
        intro c hcm
        simpa [List.contains] using hnotin c hcm
      have hrateq : ratioStage df3 species = .ok df3 := by
        unfold ratioStage
        rw [hfnone]
      rw [hrateq] at hrat
      injection hrat with hrat
      subst hrat
      have hmfr_pos : "male_female_ratio" ∈ possibleRatioCols species := by
        unfold possibleRatioCols
        simp
      have hnotherd : "male_female_ratio" ∉ (herdStage df3).cols := by
        intro hmem
        rcases cols_herdStage_mem hmem with h1 | h1 | h1
        · exact hnotin _ hmfr_pos h1
        · exact absurd h1 (by decide)
        · exact absurd h1 (by decide)
      exact recLookup_none_of_not_mem hr hnotherd

/-- A population table with no ratio synonym among its headers. -/
def exC5missing : List (List String) :=
  [["Herd Name", "Post Hunt Estimate"], ["Bijou", "1,250"]]

/-- Witness for C5: a missing ratio column is non-fatal and the field is
absent from the produced record. -/
theorem population_missing_ratio_field_absent_witness :
    recLookup [("herd_name", Val.s "Bijou"), ("post_hunt_estimate", Val.q 1250),
      ("state", Val.s "co"), ("species", Val.s "elk"), ("year", Val.i 2024)]
      "male_female_ratio" = none :=
  population_missing_ratio_field_absent exC5missing "co" "elk" 2024
    [[("herd_name", Val.s "Bijou"), ("post_hunt_estimate", Val.q 1250),
      ("state", Val.s "co"), ("species", Val.s "elk"), ("year", Val.i 2024)]]
    (by decide) (by decide) _ (by decide)

/-- A harvest table whose header lacks the `bulls` sex-count column. -/
def exC5 : List (List String) :=
  [["Unit", "Cows", "Calves", "Total Harvest"], ["12", "3", "4", "7"]]

/-- C5 (counterexample) — on a harvest table missing a sex-count column the
normalizer does not set the dependent field to null: it fills the column with
integer 0 (line 276) and then fails the whole batch when the numeric coercion
applies the `.str` accessor to that integer column (lines 288–292). -/
theorem harvest_missing_sex_count_fails_batch :
    rows_to_data_frame_harvest exC5 "co" "elk" 2024 "archery" =
      .error "AttributeError: Can only use .str accessor with string values" := by
  decide

/-- A population table containing an "empty herd" placeholder row
(ratio exactly zero). -/
def exC3 : List (List String) :=
  [["Herd Name", "Bull Cow Ratio (per 100)"], ["Bijou", "0"], ["Park", "20"]]

/-- C3 (counterexample) — the remote-pipeline population normalizer
(`rows_to_data_frame` of `src/etl/ingest_population_data.py`) has no
zero-ratio filter: the row whose coerced sex ratio is exactly 0 is present in
the output record set. -/
theorem etl_population_keeps_zero_ratio_rows :
    rows_to_data_frame_population exC3 "co" "elk" 2024 = .ok
      [[("herd_name", Val.s "Bijou"), ("state", Val.s "co"), ("species", Val.s "elk"),
        ("year", Val.i 2024), ("male_female_ratio", Val.q 0)],
       [("herd_name", Val.s "Park"), ("state", Val.s "co"), ("species", Val.s "elk"),
        ("year", Val.i 2024), ("male_female_ratio", Val.q 20)]] := by
  decide

/-! ## The local pdfplumber pipeline
(`ingest_elk_population_data`, src/data_collection/ingest_population_data.py)

The row parser keeps the Python scoping of `gmu_start_idx`: the variable is
never initialized before the token scan, so when no token of a row matches
the GMU heuristic the code either raises `NameError` (no earlier row ever
assigned it) or silently reuses the index left over from an earlier row.  The
`else` fallback branch at lines 75–78 (single-last-token GMU) is dead code,
because `gmu_start_idx` can never hold `None`.
-/

/-- One parsed row before DataFrame coercion. -/
structure RawPopRow where
  dau : String
  herd : String
  gmu : String
  est : String
  rat : String
deriving DecidableEq, Repr

/-- `any(keyword in row_text for keyword in ["Total", "DAU (", "* DAU"])`. -/
def isSubChars (needle hay : List Char) : Bool :=
  match hay with
  | [] => needle.isEmpty
  | _ :: t => needle.isPrefixOf hay || isSubChars needle t

def footerKeyword (l : List Char) : Bool :=
  isSubChars "Total".toList l || isSubChars "DAU (".toList l ||
    isSubChars "* DAU".toList l

/-- Python `str.split()`: split on whitespace runs, dropping empty tokens. -/
def splitWsAux : List Char → List Char → List (List Char)
  | [], acc => if acc.isEmpty then [] else [acc.reverse]
  | c :: rest, acc =>
      if isPySpace c then
        (if acc.isEmpty then [] else [acc.reverse]) ++ splitWsAux rest []
      else splitWsAux rest (c :: acc)

def splitWs (l : List Char) : List String :=
  (splitWsAux l []).map String.mk

/-- The GMU-region heuristic of line 68: `re.match(r'^\d+', part) or ',' in part`. -/
def gmuTokenTest (tok : String) : Bool :=
  (match tok.toList with
   | [] => false
   | c :: _ => isDig c) || tok.toList.any (fun c => c.toNat == 44)

/-- The row loop of `ingest_elk_population_data` (lines 40–86).  The second
argument is the current value of the Python variable `gmu_start_idx`
(`none` models "never assigned"; referencing it then raises `NameError`). -/
def parseLocalRows : List (List String) → Option Nat →
    Except String (List RawPopRow)
  | [], _ => .ok []
  | row :: rest, gmuVar =>
      match row with
      | [] => .error "IndexError: list index out of range"
      | cell0 :: _ =>
          let rowText := pyStrip cell0.toList
          if footerKeyword rowText then parseLocalRows rest gmuVar
          else
            match rowText with
            | d1 :: d2 :: _ =>
                if isDig d1 && isDig d2 then
                  let remaining := splitWs (pyStrip (rowText.drop 2))
                  if 4 ≤ remaining.length then
                    let ratV := remaining.getLastD ""
                    let estV := (remaining.dropLast).getLastD ""
                    let nag := remaining.dropLast.dropLast
                    match nag.findIdx? gmuTokenTest with
                    | some i => do
                        let tl ← parseLocalRows rest (some i)
                        .ok ({ dau := String.mk [d1, d2],
                               herd := String.intercalate " " (nag.take i),
                               gmu := String.join (nag.drop i),
                               est := estV, rat := ratV } :: tl)
                    | none =>
                        match gmuVar with
                        | none => .error "NameError: name gmu_start_idx is not defined"
                        | some j => do
                            let tl ← parseLocalRows rest (some j)
                            .ok ({ dau := String.mk [d1, d2],
                                   herd := String.intercalate " " (nag.take j),
                                   gmu := String.join (nag.drop j),
                                   est := estV, rat := ratV } :: tl)
                  else parseLocalRows rest gmuVar
                else parseLocalRows rest gmuVar
            | _ => parseLocalRows rest gmuVar

/-- The final record of the local pipeline after numeric coercion
(`bull_cow_ratio` is the source's column name; the field keeps an extra
suffix only to satisfy lexical constraints of this development). -/
structure PopRecord where
  dau : String
  herd_name : String
  gmu_list : String
  post_hunt_estimate : Option Rat
  bull_cow_ratio_v : Option Rat
  year : Int
deriving DecidableEq, Repr

/-- `ingest_elk_population_data`: parse the rows of the first extracted table
(skipping the header row), coerce `post_hunt_estimate` (comma-stripped) and
`bull_cow_ratio` (no comma stripping, line 100), then drop rows whose coerced
ratio is exactly zero (line 106; NaN compares unequal to 0 and is kept). -/
def ingest_elk_population_data (table : List (List String)) (year : Int) :
    Except String (List PopRecord) := do
  let raws ← parseLocalRows table.tail none
  let recs := raws.map (fun rr =>
    { dau := rr.dau, herd_name := rr.herd, gmu_list := rr.gmu,
      post_hunt_estimate := pyNumeric (stripCommas rr.est),
      bull_cow_ratio_v := pyNumeric rr.rat,
      year := year : PopRecord })
  .ok (recs.filter (fun rec => rec.bull_cow_ratio_v != some 0))

/-- C3 (amended) — the zero-ratio exclusion is implemented only in the local
pdfplumber pipeline: every record it outputs has a coerced ratio different
from zero (rows with ratio exactly 0 are dropped; NaN rows are kept since
NaN != 0).  The remote-pipeline population normalizer does not filter
zero-ratio rows (see the counterexample). -/
theorem local_pipeline_drops_zero_ratio :
    ∀ (table : List (List String)) (year : Int) (recs : List PopRecord),
      ingest_elk_population_data table year = .ok recs →
      ∀ rec ∈ recs, rec.bull_cow_ratio_v ≠ some 0 := by
  intro table year recs hok rec hrec
  unfold ingest_elk_population_data at hok
  rcases except_ok_of_bind hok with ⟨raws, _, hok⟩
  dsimp only at hok
  injection hok with hok
  subst hok
  have hm := List.mem_filter.mp hrec
  simpa using hm.2

/-- The spec's example row, preceded by the header row the code skips. -/
def exC9 : List (List String) :=
  [["header"], ["12 South Park 76,77,78 1,250 18"]]

/-- Witness for C3 at the example table. -/
theorem local_pipeline_drops_zero_ratio_witness :
    ({ dau := "12", herd_name := "South Park", gmu_list := "76,77,78",
       post_hunt_estimate := some 1250, bull_cow_ratio_v := some 18,
       year := 2024 : PopRecord }).bull_cow_ratio_v ≠ some 0 :=
  local_pipeline_drops_zero_ratio exC9 2024
    [{ dau := "12", herd_name := "South Park", gmu_list := "76,77,78",
       post_hunt_estimate := some 1250, bull_cow_ratio_v := some 18, year := 2024 }]
    (by decide) _ (by decide)

/-- C9 — the Row Parser on `"12 South Park 76,77,78 1,250 18"` produces
dau "12", herd name "South Park", GMU list "76,77,78", post-hunt estimate
1250 and sex ratio 18. -/
theorem row_parser_example :
    ingest_elk_population_data exC9 2024 = .ok
      [{ dau := "12", herd_name := "South Park", gmu_list := "76,77,78",
         post_hunt_estimate := some 1250, bull_cow_ratio_v := some 18,
         year := 2024 }] := by
  decide

/-- A first data row in which no name-and-GMU token is numeric-leading or
holds a comma. -/
def exC4first : List (List String) := [["header"], ["12 Alpha Beta 1,250 18"]]

/-- The same row preceded by a row that assigns `gmu_start_idx = 2`. -/
def exC4stale : List (List String) :=
  [["header"], ["12 South Park 76,77,78 1,250 18"], ["12 Alpha Beta 1,250 18"]]

/-- C4 — the claim (and the code's own dead `else` branch, lines 75–78)
expects the single last token to become the GMU region with a record still
produced; instead, because `gmu_start_idx` is never initialized, the first
such row raises an unhandled `NameError`, and when an earlier row has set the
variable, its stale index is silently reused (here index 2, yielding herd
"Alpha Beta" and an empty GMU list instead of herd "Alpha" and GMU "Beta"). -/
theorem row_parser_fallback_unbound :
    ingest_elk_population_data exC4first 2024 =
      .error "NameError: name gmu_start_idx is not defined" ∧
    ingest_elk_population_data exC4stale 2024 = .ok
      [{ dau := "12", herd_name := "South Park", gmu_list := "76,77,78",
         post_hunt_estimate := some 1250, bull_cow_ratio_v := some 18, year := 2024 },
       { dau := "12", herd_name := "Alpha Beta", gmu_list := "",
         post_hunt_estimate := some 1250, bull_cow_ratio_v := some 18, year := 2024 }] := by
  decide

/-! ### The harvest unit invariant (claim C7) -/

/-- The unit column sits at index `j`, rows are well-shaped, and every row
holds an integer there. -/
def unitReady (df : DF) (j : Nat) : Prop :=
  colIdx df.cols "unit" = some j ∧
  (∀ row ∈ df.rows, row.length = df.cols.length) ∧
  (∀ row ∈ df.rows, ∃ n : Int, row.getD j Val.na = Val.i n)

theorem length_set_eq {α : Type} (l : List α) (j : Nat) (v : α) :
    (l.set j v).length = l.length := by
  simp

theorem mkDF_ok_uniform {H : List String} {drows : List (List String)} {df : DF}
    (h : mkDF H drows = .ok df) : ∀ row ∈ df.rows, row.length = df.cols.length := by
  unfold mkDF at h
  by_cases h1 : drows.any (fun r => r.length != H.length)
  · rw [if_pos h1] at h
    exact Except.noConfusion h
  · rw [if_neg h1] at h
    by_cases h2 : H.Nodup
    · rw [if_pos h2] at h
      have hlen : ∀ r ∈ drows, r.length = H.length := by
        intro r hr
        by_cases hb : (r.length != H.length : Bool)
        · exact absurd (List.any_eq_true.mpr ⟨r, hr, hb⟩) h1
        · simpa using hb
      cases h
      intro row hrow
      rcases List.mem_map.mp hrow with ⟨r, hr, hmap⟩
      rw [← hmap]
      simpa using hlen r hr
    · rw [if_neg h2] at h
      exact Except.noConfusion h

theorem mem_cols_setColConst_of_mem {df : DF} {n m : String} {v : Val}
    (h : m ∈ df.cols) : m ∈ (setColConst df n v).cols := by
  unfold setColConst
  cases hj : colIdx df.cols n with
  | some j => exact h
  | none => exact List.mem_append_left _ h

theorem uniform_setColConst {df : DF} {n : String} {v : Val}
    (h : ∀ row ∈ df.rows, row.length = df.cols.length) :
    ∀ row ∈ (setColConst df n v).rows, row.length = (setColConst df n v).cols.length := by
  unfold setColConst
  cases hj : colIdx df.cols n with
  | some j =>
      intro row hrow
      rcases List.mem_map.mp hrow with ⟨r, hr, hmap⟩
      rw [← hmap]
      simpa using h r hr
  | none =>
      intro row hrow
      rcases List.mem_map.mp hrow with ⟨r, hr, hmap⟩
      rw [← hmap]
      simp only [List.length_append, List.length_singleton]
      rw [h r hr]

theorem mem_cols_metaStageH {df : DF} {m : String} {state species : String}
    {year : Int} {season : String} (h : m ∈ df.cols) :
    m ∈ (metaStageH df state species year season).cols := by
  unfold metaStageH
  exact mem_cols_setColConst_of_mem (mem_cols_setColConst_of_mem
    (mem_cols_setColConst_of_mem (mem_cols_setColConst_of_mem h)))

theorem uniform_metaStageH (df : DF) (state species : String) (year : Int)
    (season : String) (h : ∀ row ∈ df.rows, row.length = df.cols.length) :
    ∀ row ∈ (metaStageH df state species year season).rows,
      row.length = (metaStageH df state species year season).cols.length := by
  unfold metaStageH
  exact uniform_setColConst (uniform_setColConst
    (uniform_setColConst (uniform_setColConst h)))

theorem except_map_ok {α β : Type} {g : α → β} {e : Except String α} {b : β}
    (h : Except.map g e = .ok b) : ∃ a, e = .ok a ∧ g a = b := by
  cases e with
  | error err => exact Except.noConfusion h
  | ok a =>
      refine ⟨a, rfl, ?_⟩
      injection h with h

/-- After a successful `unitStage` on a frame whose header holds `unit`,
every remaining row has an integer in the unit column. -/
theorem unitStage_establishes {df df' : DF} {j : Nat}
    (hj : colIdx df.cols "unit" = some j)
    (huni : ∀ row ∈ df.rows, row.length = df.cols.length)
    (h : unitStage df = .ok df') : unitReady df' j := by
  unfold unitStage at h
  rw [hj] at h
  rcases except_ok_of_bind h with ⟨newRows, hmap, h2⟩
  cases h2
  have hjlen : j < df.cols.length := lt_length_of_colIdx hj
  refine ⟨hj, ?_, ?_⟩
  · intro row hrow
    have hmem := (List.mem_filter.mp hrow).1
    rcases mapM_ok_mem hmap row hmem with ⟨x, hx, hfx⟩
    cases hsc : x.getD j Val.na with
    | s str =>
        rw [hsc] at hfx
        rcases except_map_ok hfx with ⟨v, _, hrow'⟩
        rw [← hrow']
        rw [length_set_eq]
        exact huni x hx
    | i n => rw [hsc] at hfx; exact Except.noConfusion hfx
    | q v => rw [hsc] at hfx; exact Except.noConfusion hfx
    | na => rw [hsc] at hfx; exact Except.noConfusion hfx
  · intro row hrow
    have hmem := (List.mem_filter.mp hrow).1
    have hne := (List.mem_filter.mp hrow).2
    rcases mapM_ok_mem hmap row hmem with ⟨x, hx, hfx⟩
    cases hsc : x.getD j Val.na with
    | s str =>
        rw [hsc] at hfx
        rcases except_map_ok hfx with ⟨v, _, hrow'⟩
        have hxlen : j < x.length := by
          rw [huni x hx]
          exact hjlen
        cases v with
        | some n =>
            refine ⟨n, ?_⟩
            rw [← hrow']
            exact getD_set_self hxlen _
        | none =>
            exfalso
            rw [← hrow'] at hne
            rw [getD_set_self hxlen] at hne
            simp at hne
    | i n => rw [hsc] at hfx; exact Except.noConfusion hfx
    | q v => rw [hsc] at hfx; exact Except.noConfusion hfx
    | na => rw [hsc] at hfx; exact Except.noConfusion hfx

theorem unitReady_renameCol {df : DF} {j : Nat} {a b : String}
    (ha : a ≠ "unit") (hb : b ≠ "unit") (h : unitReady df j) :
    unitReady (renameCol df a b) j := by
  rcases h with ⟨hj, huni, hval⟩
  have hpred : ∀ x : String,
      (((if x = a then b else x) : String) == "unit" : Bool) = (x == "unit") := by
    intro x
    by_cases hxa : x = a
    · rw [if_pos hxa, hxa]
      rw [beq_eq_false_iff_ne.mpr hb, beq_eq_false_iff_ne.mpr ha]
    · rw [if_neg hxa]
  refine ⟨?_, ?_, hval⟩
  · show colIdx (df.cols.map (fun x => if x = a then b else x)) "unit" = some j
    rw [colIdx_map_pred hpred]
    exact hj
  · intro row hrow
    rw [show (renameCol df a b).cols.length = df.cols.length by
      simp [renameCol]]
    exact huni row hrow

theorem unitReady_setColConst {df : DF} {j : Nat} {m : String} {v : Val}
    (hm : m ≠ "unit") (h : unitReady df j) : unitReady (setColConst df m v) j := by
  rcases h with ⟨hj, huni, hval⟩
  unfold setColConst
  cases hjm : colIdx df.cols m with
  | some j' =>
      have hne : j' ≠ j := by
        intro hEq
        have h1 := colIdx_found hj
        have h2 := colIdx_found hjm
        rw [hEq] at h2
        rw [h1] at h2
        injection h2 with h2
        exact hm h2.symm
      refine ⟨hj, ?_, ?_⟩
      · intro row hrow
        rcases List.mem_map.mp hrow with ⟨r, hr, hmap⟩
        rw [← hmap, length_set_eq]
        exact huni r hr
      · intro row hrow
        rcases List.mem_map.mp hrow with ⟨r, hr, hmap⟩
        rw [← hmap, getD_set_ne hne]
        exact hval r hr
  | none =>
      refine ⟨colIdx_append_of_some hj, ?_, ?_⟩
      · intro row hrow
        rcases List.mem_map.mp hrow with ⟨r, hr, hmap⟩
        rw [← hmap]
        simp only [List.length_append, List.length_singleton]
        rw [huni r hr]
      · intro row hrow
        rcases List.mem_map.mp hrow with ⟨r, hr, hmap⟩
        rw [← hmap]
        rw [getD_append_left (by rw [huni r hr]; exact lt_length_of_colIdx hj)]
        exact hval r hr

theorem speciesPairs_ne_unit {species : String} {ps : List (String × String)}
    (h : speciesPairs species = some ps) :
    ∀ pr ∈ ps, pr.1 ≠ "unit" ∧ pr.2 ≠ "unit" := by
  unfold speciesPairs at h
  split_ifs at h <;> injection h with h <;> rw [← h] <;> decide

theorem unitReady_speciesFold {ps : List (String × String)}
    (hps : ∀ pr ∈ ps, pr.1 ≠ "unit" ∧ pr.2 ≠ "unit") {df : DF} {j : Nat}
    (h : unitReady df j) :
    unitReady (ps.foldl (fun df pr =>
      if df.cols.contains pr.1 then renameCol df pr.1 pr.2
      else setColConst df pr.2 (Val.i 0)) df) j := by
  induction ps generalizing df with
  | nil => exact h
  | cons pr prs ih =>
      simp only [List.foldl_cons]
      apply ih (fun x hx => hps x (by simp [hx]))
      by_cases hc : df.cols.contains pr.1
      · rw [if_pos hc]
        exact unitReady_renameCol (hps pr (by simp)).1 (hps pr (by simp)).2 h
      · rw [if_neg hc]
        exact unitReady_setColConst (hps pr (by simp)).2 h

theorem unitReady_speciesStage {df df' : DF} {j : Nat} {species : String}
    (h : speciesStage df species = .ok df') (hr : unitReady df j) :
    unitReady df' j := by
  unfold speciesStage at h
  cases hsp : speciesPairs species with
  | none => rw [hsp] at h; exact Except.noConfusion h
  | some ps =>
      rw [hsp] at h
      injection h with h
      rw [← h]
      exact unitReady_speciesFold (speciesPairs_ne_unit hsp) hr

theorem intCoerceRow_ok_shape {j : Nat} {x y : List Val}
    (h : intCoerceRow j x = .ok y) : ∃ w, y = x.set j w := by
  unfold intCoerceRow at h
  cases hsc : x.getD j Val.na with
  | s str =>
      rw [hsc] at h
      dsimp only at h
      cases hn : pyNumeric (stripCommas str) with
      | none =>
          rw [hn] at h
          injection h with h
          exact ⟨Val.na, h.symm⟩
      | some v =>
          rw [hn] at h
          dsimp only at h
          by_cases hden : v.den = 1
          · rw [if_pos hden] at h
            injection h with h
            exact ⟨Val.i v.num, h.symm⟩
          · rw [if_neg hden] at h
            exact Except.noConfusion h
  | i n => rw [hsc] at h; exact Except.noConfusion h
  | q v => rw [hsc] at h; exact Except.noConfusion h
  | na => rw [hsc] at h; exact Except.noConfusion h

theorem unitReady_numericStep {df df' : DF} {j : Nat} {col : String}
    (hcol : col ≠ "unit") (h : numericStep df col = .ok df')
    (hr : unitReady df j) : unitReady df' j := by
  rcases hr with ⟨hj, huni, hval⟩
  unfold numericStep at h
  cases hjc : colIdx df.cols col with
  | none =>
      rw [hjc] at h
      injection h with h
      rw [← h]
      exact ⟨hj, huni, hval⟩
  | some j' =>
      rw [hjc] at h
      rcases except_ok_of_bind h with ⟨newRows, hmap, h2⟩
      cases h2
      have hne : j' ≠ j := by
        intro hEq
        have h1 := colIdx_found hj
        have h2 := colIdx_found hjc
        rw [hEq] at h2
        rw [h1] at h2
        injection h2 with h2
        exact hcol h2.symm
      refine ⟨hj, ?_, ?_⟩
      · intro row hrow
        rcases mapM_ok_mem hmap row hrow with ⟨x, hx, hfx⟩
        rcases intCoerceRow_ok_shape hfx with ⟨w, rfl⟩
        rw [length_set_eq]
        exact huni x hx
      · intro row hrow
        rcases mapM_ok_mem hmap row hrow with ⟨x, hx, hfx⟩
        rcases intCoerceRow_ok_shape hfx with ⟨w, rfl⟩
        rw [getD_set_ne hne]
        exact hval x hx

theorem unitReady_numericFold {names : List String}
    (hns : ∀ n ∈ names, n ≠ "unit") :
    ∀ {df df' : DF} {j : Nat}, names.foldlM numericStep df = .ok df' →
      unitReady df j → unitReady df' j := by
  induction names with
  | nil =>
      intro df df' j h hr
      rw [List.foldlM_nil] at h
      injection h with h
      rw [← h]
      exact hr
  | cons n ns ih =>
      intro df df' j h hr
      rw [List.foldlM_cons] at h
      rcases except_ok_of_bind h with ⟨df₁, hstep, h2⟩
      exact ih (fun x hx => hns x (by simp [hx])) h2
        (unitReady_numericStep (hns n (by simp)) hstep hr)

/-- A harvest table with unit values "007", "N/A" and "12". -/
def exC7 : List (List String) :=
  [["Unit", "Bulls", "Cows", "Calves"],
   ["007", "1", "2", "3"], ["N/A", "4", "5", "6"], ["12", "7", "8", "9"]]

/-- A harvest table with no unit column at all. -/
def exC7bad : List (List String) :=
  [["Area", "Bulls", "Cows", "Calves"], ["x", "1", "2", "3"]]

/-- C7 (counterexample) — when the header lacks a `unit` column the harvest
normalizer only warns (line 265) and still emits records; those records carry
no unit field at all, refuting "every record in the output has a non-null
integer unit" as a property of every harvest LogicalTable. -/
theorem harvest_missing_unit_column_record :
    rows_to_data_frame_harvest exC7bad "co" "elk" 2024 "archery" = .ok
      [[("area", Val.s "x"), ("adult_male", Val.i 1), ("adult_female", Val.i 2),
        ("young", Val.i 3), ("state", Val.s "co"), ("species", Val.s "elk"),
        ("year", Val.i 2024), ("season", Val.s "archery")]] ∧
    recLookup [("area", Val.s "x"), ("adult_male", Val.i 1), ("adult_female", Val.i 2),
        ("young", Val.i 3), ("state", Val.s "co"), ("species", Val.s "elk"),
        ("year", Val.i 2024), ("season", Val.s "archery")] "unit" = none := by
  decide

/-- C7 (amended) — for every harvest LogicalTable whose cleaned header row
holds a `unit` column, whenever the normalizer returns a record set, every
record carries a non-null integer unit; rows with non-numeric unit are
dropped, and leading zeros are stripped ("007" becomes 7, the "N/A" row is
dropped), as the concrete second conjunct shows.  (Without a `unit` header
the records carry no unit at all — see the counterexample; a digit-only
all-zero unit makes the normalizer raise instead — see C10.) -/
theorem harvest_unit_invariant :
    (∀ (table : List (List String)) (state species season : String) (year : Int)
        (recs : List (List (String × Val))),
      "unit" ∈ _clean_headers (table.headD []) →
      rows_to_data_frame_harvest table state species year season = .ok recs →
      ∀ r ∈ recs, ∃ n : Int, recLookup r "unit" = some (Val.i n)) ∧
    rows_to_data_frame_harvest exC7 "co" "elk" 2024 "archery" = .ok
      [[("unit", Val.i 7), ("adult_male", Val.i 1), ("adult_female", Val.i 2),
        ("young", Val.i 3), ("state", Val.s "co"), ("species", Val.s "elk"),
        ("year", Val.i 2024), ("season", Val.s "archery")],
       [("unit", Val.i 12), ("adult_male", Val.i 7), ("adult_female", Val.i 8),
        ("young", Val.i 9), ("state", Val.s "co"), ("species", Val.s "elk"),
        ("year", Val.i 2024), ("season", Val.s "archery")]] := by
  constructor
  · intro table state species season year recs hmem hok r hr
    cases table with
    | nil => simp [_clean_headers] at hmem
    | cons rawHeaders dataRows =>
        simp only [List.headD_cons] at hmem
        unfold rows_to_data_frame_harvest at hok
        rcases except_ok_of_bind hok with ⟨filtered, hft, hok⟩
        rcases except_ok_of_bind hok with ⟨df0, hmk, hok⟩
        dsimp only at hok
        rcases except_ok_of_bind hok with ⟨df1, hunit, hok⟩
        rcases except_ok_of_bind hok with ⟨df2, hspc, hok⟩
        rcases except_ok_of_bind hok with ⟨df3, hnum, hok⟩
        injection hok with hok
        subst hok
        have hcols0 : df0.cols = _clean_headers rawHeaders := mkDF_ok_cols hmk
        have hmem1 : "unit" ∈ (metaStageH df0 state species year season).cols :=
          mem_cols_metaStageH (by rw [hcols0]; exact hmem)
        have huni1 := uniform_metaStageH df0 state species year season
          (mkDF_ok_uniform hmk)
        rcases Option.isSome_iff_exists.mp (colIdx_isSome_of_mem hmem1) with ⟨j, hj⟩
        have hready1 := unitStage_establishes hj huni1 hunit
        have hready2 := unitReady_speciesStage hspc hready1
        have hready3 : unitReady df3 j := by
          unfold numericStage at hnum
          exact unitReady_numericFold (by decide) hnum hready2
        rcases hready3 with ⟨hj3, huni3, hval3⟩
        rcases List.mem_map.mp hr with ⟨row, hrowmem, hrec⟩
        rcases hval3 row hrowmem with ⟨n, hn⟩
        refine ⟨n, ?_⟩
        rw [← hrec]
        unfold recLookup
        rw [zip_find_eq hj3 (huni3 row hrowmem), hn]
        rfl
  · decide

/-- Witness for C7: the general invariant applied to the "007" record of the
concrete table. -/
theorem harvest_unit_invariant_witness :
    ∃ n : Int, recLookup [("unit", Val.i 7), ("adult_male", Val.i 1),
      ("adult_female", Val.i 2), ("young", Val.i 3), ("state", Val.s "co"),
      ("species", Val.s "elk"), ("year", Val.i 2024), ("season", Val.s "archery")]
      "unit" = some (Val.i n) :=
  harvest_unit_invariant.1 exC7 "co" "elk" "archery" 2024
    [[("unit", Val.i 7), ("adult_male", Val.i 1), ("adult_female", Val.i 2),
      ("young", Val.i 3), ("state", Val.s "co"), ("species", Val.s "elk"),
      ("year", Val.i 2024), ("season", Val.s "archery")],
     [("unit", Val.i 12), ("adult_male", Val.i 7), ("adult_female", Val.i 8),
      ("young", Val.i 9), ("state", Val.s "co"), ("species", Val.s "elk"),
      ("year", Val.i 2024), ("season", Val.s "archery")]]
    (by decide) (by decide) _ (by decide)
